import Mathlib

/-!
Verification of the multi-broker MQTT subscriber service.

The development shallowly embeds the Go sources (cmd/server/main.go,
config/config.go) into Lean.  Go strings and byte slices are modelled as
lists of natural numbers (one per byte), so byte lengths and formatting
are exact.  External collaborators (the MQTT transport, the filesystem,
the clock, the process environment and the encoding/json library) are
modelled explicitly: the transport and filesystem as outcome functions
fed to the startup loop, encoding/json as an executable parser and
indenting serializer over a JSON syntax tree.
-/

/-- Go strings and byte slices, one natural number per byte. -/
abbrev Str := List Nat

/-- Bytes of a pure-ASCII Lean string literal (used to transcribe the
Go source's string literals). -/
def asciiBytes (s : String) : Str := s.data.map Char.toNat

/-- Decimal digits of a natural number, accumulator form. -/
def natDecAux : Nat → Str → Str
  | 0, acc => acc
  | n + 1, acc => natDecAux ((n + 1) / 10) (((n + 1) % 10 + 48) :: acc)
decreasing_by exact Nat.div_lt_self (Nat.succ_pos n) (by omega)

/-- Decimal rendering of a natural number as ASCII bytes (the `%d` verb). -/
def natDec (n : Nat) : Str := if n = 0 then [48] else natDecAux n []

/-! ## Model of the encoding/json collaborator

Modelled from the spec: the Go standard library `encoding/json`
(`json.Unmarshal` into `interface\x7b\x7d` and `json.MarshalIndent` with a
two-space indent) is an external collaborator, not part of this
repository's sources.  The model keeps number and string tokens in their
source form (escape sequences are not decoded and numbers are not
converted to floating point), and keeps object fields as an ordered list
rather than a sorted map; under this abstraction the observable facts the
specification relies on (which payloads parse, the indented layout, and
the parse/serialize roundtrip) agree with the Go library. -/

/-- JSON syntax tree with raw (source-form) number and string tokens. -/
inductive Json where
  | null : Json
  | bool : Bool → Json
  | num : Str → Json
  | str : Str → Json
  | arr : List Json → Json
  | obj : List (Str × Json) → Json

/-- Two-space indentation padding at nesting depth `n`. -/
def pad (n : Nat) : Str := List.replicate (2 * n) 32

mutual

/-- Serialization of a JSON value at indent depth `ind`, following the
layout of `json.MarshalIndent(v, "", "  ")`. -/
def ser (ind : Nat) : Json → Str
  | .null => [110, 117, 108, 108]
  | .bool true => [116, 114, 117, 101]
  | .bool false => [102, 97, 108, 115, 101]
  | .num s => s
  | .str s => 34 :: s ++ [34]
  | .arr [] => [91, 93]
  | .arr (x :: xs) =>
      91 :: 10 :: pad (ind + 1) ++ ser (ind + 1) x ++
        serElemsFrom (ind + 1) xs (10 :: pad ind ++ [93])
  | .obj [] => [123, 125]
  | .obj (f :: fs) =>
      123 :: 10 :: pad (ind + 1) ++ serField (ind + 1) f ++
        serFieldsFrom (ind + 1) fs (10 :: pad ind ++ [125])

/-- One serialized object field: quoted key, colon, space, value. -/
def serField (ind : Nat) : Str × Json → Str
  | (k, v) => 34 :: k ++ 34 :: 58 :: 32 :: ser ind v

/-- Bytes following the current array element: either the closing
suffix `close` or a comma, newline, padding and the next element. -/
def serElemsFrom (ind : Nat) (xs : List Json) (close : Str) : Str :=
  match xs with
  | [] => close
  | y :: ys => 44 :: 10 :: pad ind ++ ser ind y ++ serElemsFrom ind ys close

/-- Bytes following the current object field. -/
def serFieldsFrom (ind : Nat) (fs : List (Str × Json)) (close : Str) : Str :=
  match fs with
  | [] => close
  | g :: gs => 44 :: 10 :: pad ind ++ serField ind g ++ serFieldsFrom ind gs close

end

/-- Serialization entry point: `json.MarshalIndent(v, "", "  ")`. -/
def marshalIndent (j : Json) : Str := ser 0 j

/-- JSON insignificant whitespace bytes (space, tab, newline, return). -/
def isWS (c : Nat) : Bool := c = 32 || c = 9 || c = 10 || c = 13

/-- Drop leading JSON whitespace. -/
def skipWS : Str → Str
  | [] => []
  | c :: cs => if isWS c then skipWS cs else c :: cs

def isDigit (c : Nat) : Bool := 48 ≤ c && c ≤ 57

def isHex (c : Nat) : Bool :=
  isDigit c || (97 ≤ c && c ≤ 102) || (65 ≤ c && c ≤ 70)

/-- Single-character escapes permitted after a backslash. -/
def isEsc (c : Nat) : Bool :=
  c = 34 || c = 92 || c = 47 || c = 98 || c = 102 || c = 110 || c = 114 || c = 116

/-- Scan a string token after its opening quote: returns the raw content
bytes and the remainder after the closing quote, validating escapes and
rejecting unescaped control characters, as Go's JSON scanner does. -/
def parseStrContent : Str → Option (Str × Str)
  | [] => none
  | c :: rest =>
    if c = 34 then some ([], rest)
    else if c = 92 then
      match rest with
      | [] => none
      | e :: rest2 =>
        if e = 117 then
          match rest2 with
          | h1 :: h2 :: h3 :: h4 :: rest3 =>
            if isHex h1 && isHex h2 && isHex h3 && isHex h4 then
              (parseStrContent rest3).map
                (fun p => (92 :: 117 :: h1 :: h2 :: h3 :: h4 :: p.1, p.2))
            else none
          | _ => none
        else if isEsc e then
          (parseStrContent rest2).map (fun p => (92 :: e :: p.1, p.2))
        else none
    else if 32 ≤ c then
      (parseStrContent rest).map (fun p => (c :: p.1, p.2))
    else none

/-- Characters that may occur in a JSON number token. -/
def isNumChar (c : Nat) : Bool :=
  isDigit c || c = 45 || c = 43 || c = 46 || c = 101 || c = 69

/-- Drop leading decimal digits. -/
def chompDigits : Str → Str
  | [] => []
  | c :: t => if isDigit c then chompDigits t else c :: t

/-- Validity of an exponent tail (what follows the `e`/`E`). -/
def validExpTail (s : Str) : Bool :=
  let s1 := match s with
    | c :: t => if c = 43 || c = 45 then t else c :: t
    | [] => []
  match s1 with
  | c :: t => isDigit c && chompDigits t = []
  | [] => false

/-- Validity of an optional exponent part. -/
def validExpPart : Str → Bool
  | [] => true
  | c :: t => (c = 101 || c = 69) && validExpTail t

/-- Validity of an optional fraction part followed by an optional
exponent part. -/
def validFracPart : Str → Bool
  | 46 :: t =>
    match t with
    | c :: _ => isDigit c && validExpPart (chompDigits t)
    | [] => false
  | s => validExpPart s

/-- The JSON number grammar, as enforced by Go's scanner. -/
def validNumber (s : Str) : Bool :=
  match s with
  | [] => false
  | c0 :: t0 =>
    match if c0 = 45 then t0 else c0 :: t0 with
    | [] => false
    | c :: t =>
      if c = 48 then validFracPart t
      else isDigit c && validFracPart (chompDigits t)

/-- Consume an expected literal byte sequence from the front of the
input. -/
def dropLit : Str → Str → Option Str
  | [], r => some r
  | _, [] => none
  | l :: ls, c :: cs => if c = l then dropLit ls cs else none

mutual

/-- Scan one JSON value, skipping leading whitespace; `fuel` bounds the
recursion depth (the entry point supplies ample fuel, see `unmarshal`). -/
def parseValue : Nat → Str → Option (Json × Str)
  | 0, _ => none
  | fuel + 1, input =>
    match skipWS input with
    | [] => none
    | c :: rest =>
      if c = 110 then
        (dropLit [117, 108, 108] rest).map (fun r => (.null, r))
      else if c = 116 then
        (dropLit [114, 117, 101] rest).map (fun r => (.bool true, r))
      else if c = 102 then
        (dropLit [97, 108, 115, 101] rest).map (fun r => (.bool false, r))
      else if c = 34 then
        (parseStrContent rest).map (fun p => (.str p.1, p.2))
      else if c = 91 then
        match skipWS rest with
        | [] => none
        | d :: r =>
          if d = 93 then some (.arr [], r)
          else (parseElems fuel (d :: r)).map (fun p => (.arr p.1, p.2))
      else if c = 123 then
        match skipWS rest with
        | [] => none
        | d :: r =>
          if d = 125 then some (.obj [], r)
          else (parseFields fuel (d :: r)).map (fun p => (.obj p.1, p.2))
      else if c = 45 || isDigit c then
        let tok := (c :: rest).takeWhile isNumChar
        if validNumber tok then some (.num tok, (c :: rest).dropWhile isNumChar)
        else none
      else none

/-- Scan the elements of a non-empty array, positioned at the first
element. -/
def parseElems : Nat → Str → Option (List Json × Str)
  | 0, _ => none
  | fuel + 1, input =>
    match parseValue fuel input with
    | none => none
    | some (v, r) =>
      match skipWS r with
      | [] => none
      | d :: r2 =>
        if d = 44 then
          (parseElems fuel (skipWS r2)).map (fun p => (v :: p.1, p.2))
        else if d = 93 then some ([v], r2)
        else none

/-- Scan the fields of a non-empty object, positioned at the first key
quote. -/
def parseFields : Nat → Str → Option (List (Str × Json) × Str)
  | 0, _ => none
  | fuel + 1, input =>
    match input with
    | [] => none
    | c :: r =>
      if c = 34 then
        match parseStrContent r with
        | none => none
        | some (k, r1) =>
          match skipWS r1 with
          | [] => none
          | d :: r2 =>
            if d = 58 then
              match parseValue fuel r2 with
              | none => none
              | some (v, r3) =>
                match skipWS r3 with
                | [] => none
                | e :: r4 =>
                  if e = 44 then
                    (parseFields fuel (skipWS r4)).map
                      (fun p => ((k, v) :: p.1, p.2))
                  else if e = 125 then some ([(k, v)], r4)
                  else none
            else none
      else none

end

/-- Parsing entry point, `json.Unmarshal` of a whole payload into `interface\x7b\x7d`: one value,
surrounded only by whitespace.  The fuel `2 * length + 2` is ample: every
unit of parser recursion consumes input. -/
def unmarshal (payload : Str) : Option Json :=
  match parseValue (2 * payload.length + 2) payload with
  | some (j, rest) => if skipWS rest = [] then some j else none
  | none => none

/-- Raw string-content validity: same scan as `parseStrContent`, without a
terminating quote. -/
def strContentOk : Str → Bool
  | [] => true
  | c :: rest =>
    if c = 34 then false
    else if c = 92 then
      match rest with
      | [] => false
      | e :: rest2 =>
        if e = 117 then
          match rest2 with
          | h1 :: h2 :: h3 :: h4 :: rest3 =>
            (isHex h1 && isHex h2 && isHex h3 && isHex h4) && strContentOk rest3
          | _ => false
        else isEsc e && strContentOk rest2
    else 32 ≤ c && strContentOk rest

mutual

/-- Well-formedness of a syntax tree: exactly the trees the parser can
produce (valid tokens throughout). -/
def Json.valid : Json → Bool
  | .null => true
  | .bool _ => true
  | .num s => validNumber s && s.all isNumChar
  | .str s => strContentOk s
  | .arr xs => validListJ xs
  | .obj fs => validFieldsJ fs

def validListJ : List Json → Bool
  | [] => true
  | x :: xs => x.valid && validListJ xs

def validFieldsJ : List (Str × Json) → Bool
  | [] => true
  | f :: fs => strContentOk f.1 && f.2.valid && validFieldsJ fs

end

mutual

/-- Node count of a JSON tree, a lower bound for the parser fuel. -/
def Json.size : Json → Nat
  | .arr xs => sizeListJ xs + 1
  | .obj fs => sizeFieldsJ fs + 1
  | _ => 1

def sizeListJ : List Json → Nat
  | [] => 0
  | x :: xs => x.size + sizeListJ xs + 1

def sizeFieldsJ : List (Str × Json) → Nat
  | [] => 0
  | f :: fs => f.2.size + sizeFieldsJ fs + 1

end

/-! ### Parser/serializer roundtrip lemmas -/

theorem skipWS_cons (c : Nat) (l : Str) (h : isWS c = false) :
    skipWS (c :: l) = c :: l := by
  simp [skipWS, h]

theorem skipWS_append (w : Str) (h : w.all isWS = true) (l : Str) :
    skipWS (w ++ l) = skipWS l := by
  induction w with
  | nil => rfl
  | cons c t ih =>
    simp only [List.all_cons, Bool.and_eq_true] at h
    simp [skipWS, h.1, ih h.2]

theorem pad_all_ws (n : Nat) : (pad n).all isWS = true := by
  refine List.all_eq_true.mpr ?_
  intro c hc
  have hceq := List.eq_of_mem_replicate hc
  subst hceq
  decide

theorem dropLit_self (lit r : Str) : dropLit lit (lit ++ r) = some r := by
  induction lit with
  | nil => simp [dropLit]
  | cons c t ih => simp [dropLit, ih]

theorem takeWhile_all (p : Nat → Bool) (l : Str) :
    (l.takeWhile p).all p = true := by
  induction l with
  | nil => simp
  | cons c t ih =>
    by_cases h : p c = true
    · simp [List.takeWhile, h, ih]
    · simp [List.takeWhile] at h ⊢
      simp [h]

theorem takeWhile_append_all (p : Nat → Bool) (xs : Str) (h : xs.all p = true)
    (rest : Str) (h2 : ∀ c t, rest = c :: t → p c = false) :
    (xs ++ rest).takeWhile p = xs ∧ (xs ++ rest).dropWhile p = rest := by
  induction xs with
  | nil =>
    cases rest with
    | nil => simp
    | cons c t => simp [List.takeWhile, List.dropWhile, h2 c t rfl]
  | cons c t ih =>
    simp only [List.all_cons, Bool.and_eq_true] at h
    have := ih h.2
    simp [List.takeWhile, List.dropWhile, h.1, this.1, this.2]

theorem validNumber_shape (s : Str) (h : validNumber s = true) :
    ∃ c t, s = c :: t ∧ (c = 45 ∨ isDigit c = true) := by
  rcases s with _ | ⟨c, t⟩
  · simp [validNumber] at h
  · refine ⟨c, t, rfl, ?_⟩
    by_cases hc : c = 45
    · exact Or.inl hc
    · right
      simp only [validNumber, hc, if_false] at h
      split at h
      next hceq => subst hceq; decide
      next => simp only [Bool.and_eq_true] at h; exact h.1


/-- Continuations that can follow a serialized value inside the
roundtrip argument: nothing, a comma, or a newline. -/
def RestOk (rest : Str) : Prop := rest = [] ∨ ∃ t, rest = 44 :: t ∨ rest = 10 :: t

theorem RestOk_not_numChar (rest : Str) (h : RestOk rest) :
    ∀ c t, rest = c :: t → isNumChar c = false := by
  intro c t hct
  rcases h with h | ⟨u, h | h⟩ <;> rw [hct] at h <;> simp_all [isNumChar, isDigit]

theorem ser_head (j : Json) (ind : Nat) (h : Json.valid j = true) :
    ∃ c t, ser ind j = c :: t ∧ isWS c = false ∧ c ≠ 93 := by
  cases j with
  | null => exact ⟨110, _, rfl, by decide, by decide⟩
  | bool b => cases b
              · exact ⟨102, _, rfl, by decide, by decide⟩
              · exact ⟨116, _, rfl, by decide, by decide⟩
  | num s =>
    rw [Json.valid] at h
    simp only [Bool.and_eq_true] at h
    obtain ⟨c, t, hs, hc⟩ := validNumber_shape s h.1
    refine ⟨c, t, by simp [ser, hs], ?_, ?_⟩
    · rcases hc with rfl | hd
      · decide
      · simp [isDigit] at hd; simp [isWS]; omega
    · rcases hc with rfl | hd
      · decide
      · simp [isDigit] at hd; omega
  | str s => exact ⟨34, _, rfl, by decide, by decide⟩
  | arr xs =>
    cases xs
    · exact ⟨91, _, rfl, by decide, by decide⟩
    · exact ⟨91, _, rfl, by decide, by decide⟩
  | obj fs =>
    cases fs
    · exact ⟨123, _, rfl, by decide, by decide⟩
    · exact ⟨123, _, rfl, by decide, by decide⟩

theorem parseStrContent_ser (s : Str) (h : strContentOk s = true) (rest : Str) :
    parseStrContent (s ++ 34 :: rest) = some (s, rest) := by
  induction s using strContentOk.induct with
  | case1 => simp [parseStrContent.eq_def]
  | case2 cs => simp [strContentOk.eq_def] at h
  | case3 => simp [strContentOk.eq_def] at h
  | case4 h1 h2 h3 h4 rest3 hne ih =>
    rw [strContentOk.eq_def] at h
    simp at h
    obtain ⟨⟨⟨⟨hh1, hh2⟩, hh3⟩, hh4⟩, hok⟩ := h
    rw [parseStrContent.eq_def]
    simp [hh1, hh2, hh3, hh4, ih hok]
  | case5 rest2 hshape hne =>
    exfalso
    rcases rest2 with _ | ⟨a, _ | ⟨b, _ | ⟨c, _ | ⟨d, t⟩⟩⟩⟩
    · rw [strContentOk.eq_def] at h; simp at h
    · rw [strContentOk.eq_def] at h; simp at h
    · rw [strContentOk.eq_def] at h; simp at h
    · rw [strContentOk.eq_def] at h; simp at h
    · exact hshape a b c d t rfl
  | case6 e rest2 hne117 hne ih =>
    rw [strContentOk.eq_def] at h
    simp [hne117] at h
    obtain ⟨hesc, hok⟩ := h
    rw [parseStrContent.eq_def]
    simp [hne117, hesc, ih hok]
  | case7 c cs hne34 hne92 ih =>
    rw [strContentOk.eq_def] at h
    simp [hne34, hne92] at h
    obtain ⟨hge, hok⟩ := h
    rw [parseStrContent.eq_def]
    simp [hne34, hne92, hge, ih hok]

theorem strContentOk_of_parse (l : Str) :
    ∀ s r, parseStrContent l = some (s, r) → strContentOk s = true := by
  induction l using parseStrContent.induct with
  | case1 => intro s r h; rw [parseStrContent.eq_def] at h; simp at h
  | case2 cs =>
    intro s r h; rw [parseStrContent.eq_def] at h; simp at h
    simp [h.1, strContentOk.eq_def]
  | case3 hne =>
    intro s r h; rw [parseStrContent.eq_def] at h; simp at h
  | case4 h1 h2 h3 h4 rest3 hhex hne ih =>
    intro s r h; rw [parseStrContent.eq_def] at h
    simp [hhex] at h
    obtain ⟨a, hp, hs⟩ := h
    subst hs
    rw [strContentOk.eq_def]
    simp only [Bool.and_eq_true] at hhex
    simp [hhex.1.1.1, hhex.1.1.2, hhex.1.2, hhex.2, ih _ _ hp]
  | case5 h1 h2 h3 h4 rest3 hhex hne =>
    intro s r h; rw [parseStrContent.eq_def] at h; simp [hhex] at h
  | case6 rest2 hshape hne =>
    intro s r h; rw [parseStrContent.eq_def] at h
    rcases rest2 with _ | ⟨a, _ | ⟨b, _ | ⟨c, _ | ⟨d, t⟩⟩⟩⟩
    · simp at h
    · simp at h
    · simp at h
    · simp at h
    · exact absurd rfl (fun hh => hshape a b c d t hh)
  | case7 e rest2 hne117 hesc hne ih =>
    intro s r h; rw [parseStrContent.eq_def] at h
    simp [hne117, hesc] at h
    obtain ⟨a, hp, hs⟩ := h
    subst hs
    rw [strContentOk.eq_def]
    simp [hne117, hesc, ih _ _ hp]
  | case8 e rest2 hne117 hesc hne =>
    intro s r h; rw [parseStrContent.eq_def] at h; simp [hne117, hesc] at h
  | case9 c cs hne34 hne92 hge ih =>
    intro s r h; rw [parseStrContent.eq_def] at h
    simp [hne34, hne92, hge] at h
    obtain ⟨a, hp, hs⟩ := h
    subst hs
    rw [strContentOk.eq_def]
    simp [hne34, hne92, hge, ih _ _ hp]
  | case10 c cs hne34 hne92 hge =>
    intro s r h; rw [parseStrContent.eq_def] at h; simp [hne34, hne92, hge] at h
theorem size_pos (j : Json) : 1 ≤ j.size := by
  cases j <;> simp [Json.size]

theorem parseValue_ws (fuel : Nat) (w l : Str) (hw : w.all isWS = true) :
    parseValue fuel (w ++ l) = parseValue fuel l := by
  cases fuel with
  | zero => rfl
  | succ n => rw [parseValue, parseValue, skipWS_append w hw]

theorem skipWS_nl_cons (pk : Str) (hpk : pk.all isWS = true) (c : Nat)
    (hc : isWS c = false) (l : Str) :
    skipWS (10 :: (pk ++ (c :: l))) = c :: l := by
  have h1 : (10 : Nat) :: (pk ++ (c :: l)) = (10 :: pk) ++ (c :: l) := rfl
  rw [h1, skipWS_append _ (by simp [hpk, isWS]), skipWS_cons _ _ hc]

theorem skipWS_nl_pad (pk : Str) (hpk : pk.all isWS = true) (m : Nat) (j : Json)
    (hj : Json.valid j = true) (l : Str) :
    skipWS (10 :: (pk ++ (ser m j ++ l))) = ser m j ++ l := by
  have h1 : (10 : Nat) :: (pk ++ (ser m j ++ l)) = (10 :: pk) ++ (ser m j ++ l) := rfl
  rw [h1, skipWS_append _ (by simp [hpk, isWS])]
  obtain ⟨c, t, hser, hnws, h93⟩ := ser_head j m hj
  rw [hser, List.cons_append, skipWS_cons _ _ hnws]

theorem parse_ser_all : ∀ fuel : Nat,
    (∀ j ind rest, Json.valid j = true → Json.size j ≤ fuel → RestOk rest →
      parseValue fuel (ser ind j ++ rest) = some (j, rest)) ∧
    (∀ x xs ind pk rest, Json.valid x = true → validListJ xs = true →
      sizeListJ (x :: xs) ≤ fuel → pk.all isWS = true → RestOk rest →
      parseElems fuel (ser ind x ++ (serElemsFrom ind xs (10 :: pk ++ [93]) ++ rest)) =
        some (x :: xs, rest)) ∧
    (∀ k v fs ind pk rest, strContentOk k = true → Json.valid v = true →
      validFieldsJ fs = true → sizeFieldsJ ((k, v) :: fs) ≤ fuel → pk.all isWS = true →
      RestOk rest →
      parseFields fuel (serField ind (k, v) ++ (serFieldsFrom ind fs (10 :: pk ++ [125]) ++ rest)) =
        some ((k, v) :: fs, rest)) := by
  intro fuel
  induction fuel with
  | zero =>
    refine ⟨fun j ind rest hv hs hr => absurd hs (by have := size_pos j; omega),
            fun x xs ind pk rest hvx hvxs hsz hpk hr =>
              absurd hsz (by rw [sizeListJ]; omega),
            fun k v fs ind pk rest hk hv hfs hsz hpk hr =>
              absurd hsz (by rw [sizeFieldsJ]; omega)⟩
  | succ fuel ih =>
    refine ⟨?_, ?_, ?_⟩
    · -- parseValue
      intro j ind rest hv hs hr
      cases j with
      | null => simp [ser, parseValue, skipWS, isWS, dropLit]
      | bool b => cases b <;> simp [ser, parseValue, skipWS, isWS, dropLit]
      | str s =>
        rw [Json.valid] at hv
        simp only [ser, List.cons_append, List.append_assoc, List.singleton_append]
        simp [parseValue, skipWS, isWS, parseStrContent_ser s hv rest]
      | num s =>
        rw [Json.valid] at hv
        simp only [Bool.and_eq_true] at hv
        obtain ⟨hvn, hall⟩ := hv
        obtain ⟨c, t, rfl, hc⟩ := validNumber_shape s hvn
        have htw := takeWhile_append_all isNumChar (c :: t) hall rest (RestOk_not_numChar rest hr)
        have hbr : (c = 45 ∨ (48 ≤ c ∧ c ≤ 57)) := by
          rcases hc with rfl | hd
          · exact Or.inl rfl
          · simp [isDigit] at hd; exact Or.inr hd
        have hnws : isWS c = false := by
          simp only [isWS]; simp; omega
        rw [parseValue]
        rw [ser]
        rw [List.cons_append, skipWS_cons c _ hnws]
        have h110 : c ≠ 110 := by omega
        have h116 : c ≠ 116 := by omega
        have h102 : c ≠ 102 := by omega
        have h34 : c ≠ 34 := by omega
        have h91 : c ≠ 91 := by omega
        have h123 : c ≠ 123 := by omega
        have hcd : (c = 45 || isDigit c) = true := by
          simp [isDigit]; omega
        simp only [h110, h116, h102, h34, h91, h123, if_false, hcd, if_true]
        rw [← List.cons_append]
        simp only [htw.1, htw.2, hvn, if_true]
      | arr xs =>
        cases xs with
        | nil => simp [ser, parseValue, skipWS, isWS]
        | cons x xs =>
          rw [Json.valid, validListJ] at hv
          simp only [Bool.and_eq_true] at hv
          obtain ⟨hvx, hvxs⟩ := hv
          have hsz : sizeListJ (x :: xs) ≤ fuel := by
            rw [Json.size] at hs; omega
          have ihel := ih.2.1 x xs (ind + 1) (pad ind) rest hvx hvxs hsz (pad_all_ws ind) hr
          rw [parseValue]
          rw [ser]
          simp only [List.cons_append, List.append_assoc]
          rw [skipWS_cons 91 _ (by decide)]
          simp only [show ((91:Nat) = 110) = False from by simp, show ((91:Nat) = 116) = False from by simp,
            show ((91:Nat) = 102) = False from by simp, show ((91:Nat) = 34) = False from by simp,
            show ((91:Nat) = 91) = True from by simp, if_false, if_true, reduceIte]
          rw [skipWS_nl_pad (pad (ind + 1)) (pad_all_ws _) (ind + 1) x hvx _]
          obtain ⟨c0, t0, hser, hnws0, hne93⟩ := ser_head x (ind + 1) hvx
          rw [hser, List.cons_append]
          rw [hser, List.cons_append] at ihel
          simp only [List.cons_append, List.append_assoc] at ihel
          simp [hne93, ihel]
      | obj fs =>
        cases fs with
        | nil => simp [ser, parseValue, skipWS, isWS]
        | cons f fs =>
          obtain ⟨k, v⟩ := f
          rw [Json.valid, validFieldsJ] at hv
          simp only [Bool.and_eq_true] at hv
          obtain ⟨⟨hk, hvv⟩, hvfs⟩ := hv
          have hsz : sizeFieldsJ ((k, v) :: fs) ≤ fuel := by
            rw [Json.size] at hs; omega
          have ihf := ih.2.2 k v fs (ind + 1) (pad ind) rest hk hvv hvfs hsz (pad_all_ws ind) hr
          rw [parseValue]
          rw [ser]
          simp only [serField, List.cons_append, List.append_assoc]
          rw [skipWS_cons 123 _ (by decide)]
          simp only [show ((123:Nat) = 110) = False from by simp, show ((123:Nat) = 116) = False from by simp,
            show ((123:Nat) = 102) = False from by simp, show ((123:Nat) = 34) = False from by simp,
            show ((123:Nat) = 91) = False from by simp, show ((123:Nat) = 123) = True from by simp,
            if_false, if_true, reduceIte]
          rw [skipWS_nl_cons (pad (ind + 1)) (pad_all_ws _) 34 (by decide) _]
          simp only [serField, List.cons_append, List.append_assoc] at ihf
          simp [ihf]
    · -- parseElems
      intro x xs ind pk rest hvx hvxs hsz hpk hr
      have hszx : Json.size x ≤ fuel := by rw [sizeListJ] at hsz; omega
      have hro : RestOk (serElemsFrom ind xs (10 :: pk ++ [93]) ++ rest) := by
        cases xs with
        | nil => exact Or.inr ⟨pk ++ ([93] ++ rest), Or.inr (by simp [serElemsFrom])⟩
        | cons y ys =>
          exact Or.inr ⟨10 :: (pad ind ++ (ser ind y ++
            (serElemsFrom ind ys ((10 :: pk) ++ [93]) ++ rest))),
            Or.inl (by simp [serElemsFrom])⟩
      rw [parseElems]
      rw [ih.1 x ind _ hvx hszx hro]
      cases xs with
      | nil =>
        simp only [serElemsFrom]
        rw [show ((10 :: pk) ++ [93]) ++ rest = (10 :: pk) ++ (93 :: rest) from by simp]
        rw [show (10 :: pk) ++ (93 :: rest) = 10 :: (pk ++ (93 :: rest)) from rfl]
        rw [skipWS_nl_cons pk hpk 93 (by decide) rest]
        simp
      | cons y ys =>
        rw [validListJ] at hvxs
        simp only [Bool.and_eq_true] at hvxs
        obtain ⟨hvy, hvys⟩ := hvxs
        have hszy : sizeListJ (y :: ys) ≤ fuel := by
          rw [sizeListJ] at hsz
          have := size_pos x
          omega
        have ihe := ih.2.1 y ys ind pk rest hvy hvys hszy hpk hr
        simp only [serElemsFrom, List.cons_append, List.append_assoc]
        rw [skipWS_cons 44 _ (by decide)]
        simp only [show ((44:Nat) = 44) = True from by simp, if_true, reduceIte]
        rw [skipWS_nl_pad (pad ind) (pad_all_ws _) ind y hvy]
        simp only [List.cons_append, List.append_assoc] at ihe
        simp [ihe]
    · -- parseFields
      intro k v fs ind pk rest hk hv hfs hsz hpk hr
      have hszv : Json.size v ≤ fuel := by simp [sizeFieldsJ] at hsz; omega
      have hro : RestOk (serFieldsFrom ind fs (10 :: pk ++ [125]) ++ rest) := by
        cases fs with
        | nil => exact Or.inr ⟨pk ++ ([125] ++ rest), Or.inr (by simp [serFieldsFrom])⟩
        | cons g gs =>
          exact Or.inr ⟨10 :: (pad ind ++ (serField ind g ++
            (serFieldsFrom ind gs ((10 :: pk) ++ [125]) ++ rest))),
            Or.inl (by simp [serFieldsFrom])⟩
      rw [parseFields.eq_def]
      simp only [serField, List.cons_append, List.append_assoc]
      simp only [show ((34:Nat) = 34) = True from by simp, if_true, reduceIte]
      rw [parseStrContent_ser k hk]
      dsimp only
      rw [skipWS_cons 58 _ (by decide)]
      simp only [show ((58:Nat) = 58) = True from by simp, if_true, reduceIte]
      rw [show (32 : Nat) :: (ser ind v ++ (serFieldsFrom ind fs (10 :: (pk ++ [125])) ++ rest)) =
          [32] ++ (ser ind v ++ (serFieldsFrom ind fs (10 :: (pk ++ [125])) ++ rest)) from rfl]
      rw [parseValue_ws fuel [32] _ (by decide)]
      simp only [List.cons_append] at hro
      rw [ih.1 v ind _ hv hszv hro]
      cases fs with
      | nil =>
        simp only [serFieldsFrom]
        rw [show (10 :: (pk ++ [125])) ++ rest = 10 :: (pk ++ (125 :: rest)) from by simp]
        rw [skipWS_nl_cons pk hpk 125 (by decide) rest]
        simp
      | cons g gs =>
        obtain ⟨k2, v2⟩ := g
        rw [validFieldsJ] at hfs
        simp only [Bool.and_eq_true] at hfs
        obtain ⟨⟨hk2, hv2⟩, hgs⟩ := hfs
        have hszg : sizeFieldsJ ((k2, v2) :: gs) ≤ fuel := by
          simp [sizeFieldsJ] at hsz ⊢
          have := size_pos v
          omega
        have ihg := ih.2.2 k2 v2 gs ind pk rest hk2 hv2 hgs hszg hpk hr
        simp only [serFieldsFrom, serField, List.cons_append, List.append_assoc]
        rw [skipWS_cons 44 _ (by decide)]
        simp only [show ((44:Nat) = 44) = True from by simp, if_true, reduceIte]
        rw [skipWS_nl_cons (pad ind) (pad_all_ws _) 34 (by decide) _]
        simp only [serField, List.cons_append, List.append_assoc] at ihg
        simp [ihg]
mutual

theorem size_le_ser (j : Json) (ind : Nat) (hv : Json.valid j = true) :
    Json.size j ≤ (ser ind j).length := by
  cases j with
  | null => simp [Json.size, ser]
  | bool b => cases b <;> simp [Json.size, ser]
  | num s =>
    rw [Json.valid] at hv
    simp only [Bool.and_eq_true] at hv
    obtain ⟨c, t, rfl, hc⟩ := validNumber_shape s hv.1
    simp [Json.size, ser]
  | str s => simp [Json.size, ser]
  | arr xs =>
    cases xs with
    | nil => simp [Json.size, ser, sizeListJ]
    | cons x tl =>
      rw [Json.valid, validListJ] at hv
      simp only [Bool.and_eq_true] at hv
      have h1 := size_le_ser x (ind + 1) hv.1
      have h2 := sizeList_le_serElems tl (ind + 1) (10 :: pad ind ++ [93]) hv.2
      simp only [Json.size, ser, sizeListJ, List.length_cons, List.length_append]
      omega
  | obj fs =>
    cases fs with
    | nil => simp [Json.size, ser, sizeFieldsJ]
    | cons f tl =>
      obtain ⟨k, v⟩ := f
      rw [Json.valid, validFieldsJ] at hv
      simp only [Bool.and_eq_true] at hv
      have h1 := size_le_ser v (ind + 1) hv.1.2
      have h2 := sizeFields_le_serFields tl (ind + 1) (10 :: pad ind ++ [125]) hv.2
      simp only [Json.size, ser, serField, sizeFieldsJ, List.length_cons, List.length_append]
      omega

theorem sizeList_le_serElems (xs : List Json) (ind : Nat) (close : Str)
    (hv : validListJ xs = true) :
    sizeListJ xs ≤ (serElemsFrom ind xs close).length := by
  cases xs with
  | nil => simp [sizeListJ]
  | cons y ys =>
    rw [validListJ] at hv
    simp only [Bool.and_eq_true] at hv
    have h1 := size_le_ser y ind hv.1
    have h2 := sizeList_le_serElems ys ind close hv.2
    simp only [sizeListJ, serElemsFrom, List.length_cons, List.length_append]
    omega

theorem sizeFields_le_serFields (fs : List (Str × Json)) (ind : Nat) (close : Str)
    (hv : validFieldsJ fs = true) :
    sizeFieldsJ fs ≤ (serFieldsFrom ind fs close).length := by
  cases fs with
  | nil => simp [sizeFieldsJ]
  | cons g gs =>
    obtain ⟨k2, v2⟩ := g
    rw [validFieldsJ] at hv
    simp only [Bool.and_eq_true] at hv
    have h1 := size_le_ser v2 ind hv.1.2
    have h2 := sizeFields_le_serFields gs ind close hv.2
    simp only [sizeFieldsJ, serFieldsFrom, serField, List.length_cons, List.length_append]
    omega

end

theorem unmarshal_marshalIndent (j : Json) (hv : Json.valid j = true) :
    unmarshal (marshalIndent j) = some j := by
  rw [unmarshal, marshalIndent]
  have hsz : Json.size j ≤ 2 * (ser 0 j).length + 2 := by
    have := size_le_ser j 0 hv
    omega
  have h := (parse_ser_all (2 * (ser 0 j).length + 2)).1 j 0 [] hv hsz (Or.inl rfl)
  rw [List.append_nil] at h
  rw [h]
  simp [skipWS]
theorem parse_valid_all : ∀ fuel : Nat,
    (∀ l j r, parseValue fuel l = some (j, r) → Json.valid j = true) ∧
    (∀ l xs r, parseElems fuel l = some (xs, r) → validListJ xs = true) ∧
    (∀ l fs r, parseFields fuel l = some (fs, r) → validFieldsJ fs = true) := by
  intro fuel
  induction fuel with
  | zero =>
    exact ⟨fun l j r h => by rw [parseValue] at h; exact absurd h (by simp),
           fun l xs r h => by rw [parseElems] at h; exact absurd h (by simp),
           fun l fs r h => by rw [parseFields] at h; exact absurd h (by simp)⟩
  | succ fuel ih =>
    refine ⟨?_, ?_, ?_⟩
    · intro l j r h
      rw [parseValue] at h
      cases hsk : skipWS l with
      | nil => rw [hsk] at h; simp at h
      | cons c rest =>
        rw [hsk] at h
        dsimp only at h
        by_cases h110 : c = 110
        · rw [if_pos h110, Option.map_eq_some'] at h
          obtain ⟨a, ha, hfa⟩ := h
          injection hfa with hj hr
          subst hj; rw [Json.valid]
        · rw [if_neg h110] at h
          by_cases h116 : c = 116
          · rw [if_pos h116, Option.map_eq_some'] at h
            obtain ⟨a, ha, hfa⟩ := h
            injection hfa with hj hr
            subst hj; rw [Json.valid]
          · rw [if_neg h116] at h
            by_cases h102 : c = 102
            · rw [if_pos h102, Option.map_eq_some'] at h
              obtain ⟨a, ha, hfa⟩ := h
              injection hfa with hj hr
              subst hj; rw [Json.valid]
            · rw [if_neg h102] at h
              by_cases h34 : c = 34
              · rw [if_pos h34, Option.map_eq_some'] at h
                obtain ⟨⟨s1, r1⟩, hp, hfa⟩ := h
                injection hfa with hj hr
                subst hj; rw [Json.valid]
                exact strContentOk_of_parse rest s1 r1 hp
              · rw [if_neg h34] at h
                by_cases h91 : c = 91
                · rw [if_pos h91] at h
                  cases hsk2 : skipWS rest with
                  | nil => rw [hsk2] at h; simp at h
                  | cons d r1 =>
                    rw [hsk2] at h
                    dsimp only at h
                    by_cases h93 : d = 93
                    · rw [if_pos h93] at h
                      injection h with h1
                      injection h1 with hj hr
                      subst hj; rw [Json.valid, validListJ]
                    · rw [if_neg h93, Option.map_eq_some'] at h
                      obtain ⟨⟨xs1, r2⟩, hp, hfa⟩ := h
                      injection hfa with hj hr
                      subst hj; rw [Json.valid]
                      exact ih.2.1 _ _ _ hp
                · rw [if_neg h91] at h
                  by_cases h123 : c = 123
                  · rw [if_pos h123] at h
                    cases hsk2 : skipWS rest with
                    | nil => rw [hsk2] at h; simp at h
                    | cons d r1 =>
                      rw [hsk2] at h
                      dsimp only at h
                      by_cases h125 : d = 125
                      · rw [if_pos h125] at h
                        injection h with h1
                        injection h1 with hj hr
                        subst hj; rw [Json.valid, validFieldsJ]
                      · rw [if_neg h125, Option.map_eq_some'] at h
                        obtain ⟨⟨fs1, r2⟩, hp, hfa⟩ := h
                        injection hfa with hj hr
                        subst hj; rw [Json.valid]
                        exact ih.2.2 _ _ _ hp
                  · rw [if_neg h123] at h
                    by_cases hnum : (c = 45 || isDigit c) = true
                    · rw [if_pos hnum] at h
                      by_cases hvn : validNumber ((c :: rest).takeWhile isNumChar) = true
                      · rw [if_pos hvn] at h
                        injection h with h1
                        injection h1 with hj hr
                        subst hj; rw [Json.valid]
                        simp [hvn, takeWhile_all]
                      · rw [if_neg hvn] at h
                        exact absurd h (by simp)
                    · rw [if_neg hnum] at h
                      exact absurd h (by simp)
    · intro l xs r h
      rw [parseElems] at h
      cases hpv : parseValue fuel l with
      | none => rw [hpv] at h; simp at h
      | some p =>
        obtain ⟨v, r1⟩ := p
        have hvv := ih.1 l v r1 hpv
        rw [hpv] at h
        dsimp only at h
        cases hsk : skipWS r1 with
        | nil => rw [hsk] at h; simp at h
        | cons d r2 =>
          rw [hsk] at h
          dsimp only at h
          by_cases h44 : d = 44
          · rw [if_pos h44, Option.map_eq_some'] at h
            obtain ⟨⟨xs1, r3⟩, hp, hfa⟩ := h
            injection hfa with hxs hr
            subst hxs; rw [validListJ]
            simp [hvv, ih.2.1 _ _ _ hp]
          · rw [if_neg h44] at h
            by_cases h93 : d = 93
            · rw [if_pos h93] at h
              injection h with h1
              injection h1 with hxs hr
              subst hxs; rw [validListJ]
              simp [hvv, validListJ]
            · rw [if_neg h93] at h
              exact absurd h (by simp)
    · intro l fs r h
      rw [parseFields.eq_def] at h
      dsimp only at h
      cases l with
      | nil => simp at h
      | cons c r0 =>
        dsimp only at h
        by_cases h34 : c = 34
        · rw [if_pos h34] at h
          cases hp : parseStrContent r0 with
          | none => rw [hp] at h; simp at h
          | some p =>
            obtain ⟨k, r1⟩ := p
            have hk := strContentOk_of_parse r0 k r1 hp
            rw [hp] at h
            dsimp only at h
            cases hsk : skipWS r1 with
            | nil => rw [hsk] at h; simp at h
            | cons d r2 =>
              rw [hsk] at h
              dsimp only at h
              by_cases h58 : d = 58
              · rw [if_pos h58] at h
                cases hpv : parseValue fuel r2 with
                | none => rw [hpv] at h; simp at h
                | some q =>
                  obtain ⟨v, r3⟩ := q
                  have hvv := ih.1 r2 v r3 hpv
                  rw [hpv] at h
                  dsimp only at h
                  cases hsk2 : skipWS r3 with
                  | nil => rw [hsk2] at h; simp at h
                  | cons e r4 =>
                    rw [hsk2] at h
                    dsimp only at h
                    by_cases h44 : e = 44
                    · rw [if_pos h44, Option.map_eq_some'] at h
                      obtain ⟨⟨fs1, r5⟩, hpf, hfa⟩ := h
                      injection hfa with hfs hr
                      subst hfs; rw [validFieldsJ]
                      simp [hk, hvv, ih.2.2 _ _ _ hpf]
                    · rw [if_neg h44] at h
                      by_cases h125 : e = 125
                      · rw [if_pos h125] at h
                        injection h with h1
                        injection h1 with hfs hr
                        subst hfs; rw [validFieldsJ]
                        simp [hk, hvv, validFieldsJ]
                      · rw [if_neg h125] at h
                        exact absurd h (by simp)
              · rw [if_neg h58] at h
                exact absurd h (by simp)
        · rw [if_neg h34] at h
          exact absurd h (by simp)

theorem unmarshal_valid (payload : Str) (j : Json) (h : unmarshal payload = some j) :
    Json.valid j = true := by
  rw [unmarshal] at h
  cases hpv : parseValue (2 * payload.length + 2) payload with
  | none => rw [hpv] at h; simp at h
  | some p =>
    obtain ⟨j1, r⟩ := p
    rw [hpv] at h
    dsimp only at h
    by_cases hr : skipWS r = []
    · rw [if_pos hr] at h
      injection h with h1
      subst h1
      exact (parse_valid_all _).1 _ _ _ hpv
    · rw [if_neg hr] at h
      exact absurd h (by simp)
/-! ## The message formatter (formatMessage in cmd/server/main.go) -/

/-- The topic/length line shared by both display modes, the bytes of
Sprintf verb `"📩 %s (%d bytes)"` (the emoji is four UTF-8 bytes). -/
def headerLine (topic payload : Str) : Str :=
  [240, 159, 147, 169, 32] ++ topic ++ [32, 40] ++ natDec payload.length ++
    [32, 98, 121, 116, 101, 115, 41]

/-- Translation of `formatMessage(msg, detailed)`: in detailed mode the
payload is pretty-printed when it unmarshals as JSON and rendered raw
otherwise (the `MarshalIndent` error branch of the source cannot fire for
values produced by `Unmarshal`, and the model's serializer is total). -/
def formatMessage (topic payload : Str) (detailed : Bool) : Str :=
  if detailed then
    let prettyPayload : Str :=
      match unmarshal payload with
      | some jsonObj => marshalIndent jsonObj
      | none => payload
    headerLine topic payload ++ 10 :: prettyPayload
  else
    headerLine topic payload

/-- The spec's non-detailed template, written from the spec words: the
string `"<topic> (<N> bytes)"` with N the payload byte length. -/
def specNonDetailedLine (topic : Str) (n : Nat) : Str :=
  topic ++ [32, 40] ++ natDec n ++ [32, 98, 121, 116, 101, 115, 41]

/-- Claim C3 counterexample: for topic `t` and payload `ab`, non-detailed
formatting is not exactly `"t (2 bytes)"` — the output carries the
`"📩 "` prefix. -/
theorem formatMessage_c3_counterexample :
    formatMessage [116] [97, 98] false ≠ specNonDetailedLine [116] 2 := by
  decide

/-- Claim C3 (amended): non-detailed formatting yields exactly
`"📩 <topic> (<N> bytes)"` with N the payload length in bytes, and is
independent of the payload content. -/
theorem formatMessage_nondetailed (topic payload : Str) :
    formatMessage topic payload false =
      [240, 159, 147, 169, 32] ++ specNonDetailedLine topic payload.length ∧
    (∀ payload2 : Str, payload2.length = payload.length →
      formatMessage topic payload2 false = formatMessage topic payload false) := by
  constructor
  · simp [formatMessage, headerLine, specNonDetailedLine]
  · intro payload2 hlen
    simp [formatMessage, headerLine, hlen]

theorem formatMessage_nondetailed_witness :
    formatMessage [116] [97, 98] false =
      [240, 159, 147, 169, 32] ++ specNonDetailedLine [116] ([97, 98] : Str).length ∧
    formatMessage [116] [99, 100] false = formatMessage [116] [97, 98] false := by
  have h := formatMessage_nondetailed [116] [97, 98]
  exact ⟨h.1, h.2 [99, 100] (by decide)⟩

/-- Claim C4: detailed formatting is total and equals the topic/length
line followed by the payload section; for payloads that unmarshal the
section is the 2-space-indented re-serialization and re-parses to the
same structure, otherwise it is the raw payload bytes. -/
theorem formatMessage_detailed (topic payload : Str) :
    ∃ s : Str, formatMessage topic payload true = headerLine topic payload ++ 10 :: s ∧
      ((∃ j, unmarshal payload = some j ∧ s = marshalIndent j ∧ unmarshal s = some j) ∨
       (unmarshal payload = none ∧ s = payload)) := by
  cases hu : unmarshal payload with
  | none =>
    refine ⟨payload, ?_, Or.inr ⟨rfl, rfl⟩⟩
    simp [formatMessage, hu]
  | some j =>
    refine ⟨marshalIndent j, ?_, Or.inl ⟨j, rfl, rfl, ?_⟩⟩
    · simp [formatMessage, hu]
    · exact unmarshal_marshalIndent j (unmarshal_valid payload j hu)
/-! ## Path handling (filepath.Clean / Dir / Join / IsAbs, unix rules) -/

/-- Go `filepath.IsAbs` on unix: the path starts with a slash. -/
def isAbs : Str → Bool
  | [] => false
  | c :: _ => c = 47

/-- Component processing of Go `path.Clean`: drop empty and `.`
components, resolve `..` against the accumulator (which is kept
reversed). -/
def cleanComps (rooted : Bool) : List Str → List Str → List Str
  | acc, [] => acc.reverse
  | acc, c :: cs =>
    if c = [] ∨ c = [46] then cleanComps rooted acc cs
    else if c = [46, 46] then
      match acc with
      | [] => if rooted then cleanComps rooted [] cs
              else cleanComps rooted [[46, 46]] cs
      | a :: as2 => if a = [46, 46] then cleanComps rooted ([46, 46] :: a :: as2) cs
                    else cleanComps rooted as2 cs
    else cleanComps rooted (c :: acc) cs

/-- Split a path at slashes (`strings.Split(p, "/")` semantics). -/
def splitSlash : Str → List Str
  | [] => [[]]
  | c :: t =>
    let r := splitSlash t
    if c = 47 then [] :: r
    else
      match r with
      | h :: t2 => (c :: h) :: t2
      | [] => [[c]]

/-- Go `filepath.Clean` for unix paths. -/
def clean (p : Str) : Str :=
  if p = [] then [46]
  else
    let rooted := isAbs p
    let out := List.intercalate [47] (cleanComps rooted [] (splitSlash p))
    if rooted then 47 :: out
    else if out = [] then [46] else out

/-- Go `filepath.Dir`: strip the trailing non-separator run, clean the
remainder. -/
def dirPath (p : Str) : Str :=
  clean (p.reverse.dropWhile (fun c => c != 47)).reverse

/-- Go `filepath.Join` of two non-empty elements. -/
def joinTwo (a b : Str) : Str := clean (a ++ 47 :: b)

/-- The output-path rerooting of main.go: a relative path whose directory
is `"."` is placed under the `logs` directory. -/
def outputPathOf (p : Str) : Str :=
  if isAbs p = false ∧ dirPath p = [46] then joinTwo [108, 111, 103, 115] p else p

/-! ## Configuration data model (config/config.go) -/

/-- Translation of `config.BrokerConfig`. -/
structure BrokerConfig where
  Broker : Str
  Port : Str
  Username : Str
  Password : Str
  Topics : List Str
  OutputFile : Str
deriving DecidableEq

/-- Translation of `config.Config` (the multi-broker fields used by main). -/
structure Config where
  Brokers : List BrokerConfig
  Detailed : Bool
deriving DecidableEq

/-! ## Startup orchestration (main, cmd/server/main.go lines 88-171)

The MQTT transport and the filesystem are external collaborators; their
outcomes for this run are a `World` of result functions, and the logged
diagnostics and side effects are recorded as an `Event` trace. -/

/-- Collaborator outcomes: directory creation and file open keyed by
path, connect keyed by broker position, subscribe keyed by position and
topic. -/
structure World where
  mkdirOk : Str → Bool
  openOk : Str → Bool
  connectOk : Nat → Bool
  subscribeOk : Nat → Str → Bool

/-- Observable side effects and logged diagnostics of the startup loop
(broker positions are zero-based). -/
inductive Event where
  | mkdirCalled (dir : Str)
  | logDirFailed (dir : Str)
  | fileOpened (broker : Nat) (path : Str)
  | fileOpenFailed (path : Str)
  | connecting (broker : Nat)
  | connectFailed (broker : Nat)
  | fileClosed (broker : Nat) (path : Str)
  | subscribed (broker : Nat) (topic : Str)
  | subscribeFailed (broker : Nat) (topic : Str)
deriving DecidableEq

/-- A running session: broker position, its configuration, and the open
output file path when one was opened. -/
structure Session where
  index : Nat
  cfg : BrokerConfig
  outputPath : Option Str
deriving DecidableEq

/-- File-sink opening for one target (main.go lines 100-123): reroot the
path, create the directory when it has one (failure logged, open still
attempted), then open; open failure is logged and leaves the session
console-only. -/
def openFileEvents (w : World) (i : Nat) (b : BrokerConfig) : List Event × Option Str :=
  if b.OutputFile = [] then ([], none)
  else
    let op := outputPathOf b.OutputFile
    let d := dirPath op
    let evDir :=
      if d ≠ [46] ∧ d ≠ [] then
        if w.mkdirOk d then [Event.mkdirCalled d]
        else [Event.mkdirCalled d, Event.logDirFailed d]
      else []
    if w.openOk op then (evDir ++ [Event.fileOpened i op], some op)
    else (evDir ++ [Event.fileOpenFailed op], none)

/-- One iteration of the broker loop (main.go lines 95-163): open the
file sink, attempt connect; on failure log, close any opened sink and
skip the target; on success subscribe each topic, logging per-topic
outcomes, and keep the session. -/
def processTarget (w : World) (i : Nat) (b : BrokerConfig) : List Event × Option Session :=
  let fo := openFileEvents w i b
  if w.connectOk i = false then
    (fo.1 ++ [Event.connecting i, Event.connectFailed i] ++
      (match fo.2 with | some p => [Event.fileClosed i p] | none => []), none)
  else
    (fo.1 ++ [Event.connecting i] ++
      b.Topics.map (fun t => if w.subscribeOk i t then Event.subscribed i t
                             else Event.subscribeFailed i t),
     some ⟨i, b, fo.2⟩)

/-- The broker loop over all indexed targets, in input order. -/
def runTargets (w : World) : List (Nat × BrokerConfig) → List Event × List Session
  | [] => ([], [])
  | (i, b) :: rest =>
    let p := processTarget w i b
    let r := runTargets w rest
    (p.1 ++ r.1, match p.2 with | some s => s :: r.2 | none => r.2)

/-- Startup outcome: listening, or one of the two fatal exits. -/
inductive Phase where
  | running
  | fatalNoBrokers
  | fatalNoConnections
deriving DecidableEq

structure StartResult where
  events : List Event
  sessions : List Session
  phase : Phase

/-- The startup portion of `main` (lines 88-171): fatal when no brokers
are configured, run the loop, fatal when no connection succeeded, and
otherwise proceed to listening. -/
def startup (w : World) (cfg : Config) : StartResult :=
  if cfg.Brokers.length = 0 then ⟨[], [], .fatalNoBrokers⟩
  else
    let r := runTargets w cfg.Brokers.enum
    if r.2.length = 0 then ⟨r.1, r.2, .fatalNoConnections⟩
    else ⟨r.1, r.2, .running⟩

/-- Broker positions whose connect succeeds. -/
def connectedIdxs (w : World) (cfg : Config) : List Nat :=
  (List.range cfg.Brokers.length).filter w.connectOk
/-- Session produced for target `i`, as a function of the world. -/
def sessionOf (w : World) (i : Nat) (b : BrokerConfig) : Option Session :=
  if w.connectOk i then some ⟨i, b, (openFileEvents w i b).2⟩ else none

theorem runTargets_sessions (w : World) (l : List (Nat × BrokerConfig)) :
    (runTargets w l).2 = l.filterMap (fun p => sessionOf w p.1 p.2) := by
  induction l with
  | nil => rfl
  | cons p rest ih =>
    obtain ⟨i, b⟩ := p
    by_cases hc : w.connectOk i
    · simp [runTargets, processTarget, sessionOf, hc, ih]
    · simp [runTargets, processTarget, sessionOf, hc, ih]

theorem runTargets_events (w : World) (l : List (Nat × BrokerConfig)) :
    (runTargets w l).1 = l.flatMap (fun p => (processTarget w p.1 p.2).1) := by
  induction l with
  | nil => rfl
  | cons p rest ih =>
    obtain ⟨i, b⟩ := p
    simp [runTargets, ih]

theorem sessions_idx (w : World) (l : List BrokerConfig) (n : Nat) :
    (((List.enumFrom n l).filterMap (fun p => sessionOf w p.1 p.2)).map Session.index)
      = (List.range' n l.length).filter w.connectOk := by
  induction l generalizing n with
  | nil => simp
  | cons b bs ih =>
    rw [show List.enumFrom n (b :: bs) = (n, b) :: List.enumFrom (n + 1) bs from rfl]
    by_cases hc : w.connectOk n
    · simp only [List.filterMap_cons, sessionOf, hc, if_true, reduceIte, List.length_cons,
        List.range'_succ, List.filter_cons, List.map_cons]
      rw [List.cons_eq_cons]
      exact ⟨rfl, by simpa [sessionOf] using ih (n + 1)⟩
    · simp only [List.filterMap_cons, sessionOf, hc, if_false, reduceIte, List.length_cons,
        List.range'_succ, List.filter_cons]
      simpa [sessionOf] using ih (n + 1)
theorem startup_events_eq (w : World) (cfg : Config) (h : cfg.Brokers.length ≠ 0) :
    (startup w cfg).events = (runTargets w cfg.Brokers.enum).1 := by
  rw [startup, if_neg h]
  dsimp only
  split <;> rfl

theorem startup_sessions_eq (w : World) (cfg : Config) (h : cfg.Brokers.length ≠ 0) :
    (startup w cfg).sessions = (runTargets w cfg.Brokers.enum).2 := by
  rw [startup, if_neg h]
  dsimp only
  split <;> rfl

theorem startup_sessions_map (w : World) (cfg : Config) :
    (startup w cfg).sessions.map Session.index = connectedIdxs w cfg := by
  by_cases hK : cfg.Brokers.length = 0
  · have hnil : cfg.Brokers = [] := List.length_eq_zero.mp hK
    simp [startup, hK, connectedIdxs, hnil]
  · rw [startup_sessions_eq w cfg hK, runTargets_sessions,
      show cfg.Brokers.enum = List.enumFrom 0 cfg.Brokers from rfl, sessions_idx,
      connectedIdxs, List.range_eq_range']

theorem startup_sessions_len (w : World) (cfg : Config) :
    (startup w cfg).sessions.length = (connectedIdxs w cfg).length := by
  rw [← startup_sessions_map w cfg, List.length_map]

theorem startup_phase_eq (w : World) (cfg : Config) :
    (startup w cfg).phase =
      (if cfg.Brokers.length = 0 then Phase.fatalNoBrokers
       else if (connectedIdxs w cfg).length = 0 then Phase.fatalNoConnections
       else Phase.running) := by
  by_cases hK : cfg.Brokers.length = 0
  · simp [startup, hK]
  · have hlen := startup_sessions_len w cfg
    rw [startup_sessions_eq w cfg hK] at hlen
    rw [startup, if_neg hK, if_neg hK]
    by_cases hJ : (connectedIdxs w cfg).length = 0
    · rw [if_pos hJ]
      rw [if_pos (by omega)]
    · rw [if_neg hJ]
      rw [if_neg (by omega)]

theorem mem_connectedIdxs (w : World) (cfg : Config) (j : Nat) :
    j ∈ connectedIdxs w cfg ↔ (j < cfg.Brokers.length ∧ w.connectOk j = true) := by
  simp [connectedIdxs, List.mem_filter, List.mem_range]

theorem getElem?_mem_enumFrom {α : Type} (l : List α) :
    ∀ (n i : Nat) (b : α), l[i]? = some b → (n + i, b) ∈ List.enumFrom n l := by
  induction l with
  | nil => intro n i b h; simp at h
  | cons a t ih =>
    intro n i b h
    cases i with
    | zero =>
      simp at h
      simp [List.enumFrom, h]
    | succ k =>
      simp at h
      have := ih (n + 1) k b h
      have harith : n + (k + 1) = (n + 1) + k := by omega
      rw [harith]
      exact List.mem_cons_of_mem _ this

theorem mem_enum_of_getElem? {α : Type} (l : List α) (i : Nat) (b : α)
    (h : l[i]? = some b) : (i, b) ∈ l.enum := by
  have := getElem?_mem_enumFrom l 0 i b h
  simpa using this

theorem mem_enumFrom_getElem? {α : Type} (l : List α) :
    ∀ (n j : Nat) (b : α), (j, b) ∈ List.enumFrom n l → n ≤ j ∧ l[j - n]? = some b := by
  induction l with
  | nil => intro n j b h; simp at h
  | cons a t ih =>
    intro n j b h
    rw [show List.enumFrom n (a :: t) = (n, a) :: List.enumFrom (n + 1) t from rfl] at h
    rcases List.mem_cons.mp h with h1 | h1
    · injection h1 with h2 h3
      subst h2; subst h3
      simp
    · obtain ⟨hle, hg⟩ := ih (n + 1) j b h1
      refine ⟨by omega, ?_⟩
      have : j - n = (j - (n + 1)) + 1 := by omega
      rw [this]
      simpa using hg

theorem mem_startup_events (w : World) (cfg : Config) (e : Event)
    (h : cfg.Brokers.length ≠ 0) :
    e ∈ (startup w cfg).events ↔
      ∃ i b, cfg.Brokers[i]? = some b ∧ e ∈ (processTarget w i b).1 := by
  rw [startup_events_eq w cfg h, runTargets_events, List.mem_flatMap]
  constructor
  · rintro ⟨⟨i, b⟩, hmem, he⟩
    have := mem_enumFrom_getElem? cfg.Brokers 0 i b (by simpa [List.enum] using hmem)
    exact ⟨i, b, by simpa using this.2, he⟩
  · rintro ⟨i, b, hg, he⟩
    exact ⟨(i, b), mem_enum_of_getElem? cfg.Brokers i b hg, he⟩
theorem connectFailed_mem_processTarget (w : World) (i : Nat) (b : BrokerConfig)
    (h : w.connectOk i = false) :
    Event.connectFailed i ∈ (processTarget w i b).1 := by
  simp [processTarget, h]

theorem fileOpened_not_mem_evDir (w : World) (i : Nat) (p d : Str) :
    Event.fileOpened i p ∉
      (if d ≠ [46] ∧ d ≠ [] then
        (if w.mkdirOk d then [Event.mkdirCalled d]
         else [Event.mkdirCalled d, Event.logDirFailed d]) else []) := by
  split
  · split <;> simp
  · simp

theorem fileOpened_openFileEvents (w : World) (a : Nat) (b : BrokerConfig) (i : Nat) (p : Str)
    (hm : Event.fileOpened i p ∈ (openFileEvents w a b).1) :
    a = i ∧ (openFileEvents w a b).2 = some p := by
  rw [openFileEvents] at hm ⊢
  by_cases h0 : b.OutputFile = []
  · simp [h0] at hm
  · rw [if_neg h0] at hm ⊢
    dsimp only at hm ⊢
    by_cases hop : w.openOk (outputPathOf b.OutputFile)
    · rw [if_pos hop] at hm ⊢
      rw [List.mem_append] at hm
      rcases hm with hm | hm
      · exact absurd hm (fileOpened_not_mem_evDir w i p _)
      · simp at hm
        exact ⟨hm.1.symm, by rw [hm.2]⟩
    · rw [if_neg hop] at hm ⊢
      rw [List.mem_append] at hm
      rcases hm with hm | hm
      · exact absurd hm (fileOpened_not_mem_evDir w i p _)
      · simp at hm

theorem fileOpened_processTarget (w : World) (a : Nat) (b : BrokerConfig) (i : Nat) (p : Str)
    (h : Event.fileOpened i p ∈ (processTarget w a b).1) :
    a = i ∧ (openFileEvents w a b).2 = some p := by
  rw [processTarget] at h
  by_cases hc : w.connectOk a = false
  · rw [if_pos hc] at h
    dsimp only at h
    simp only [List.mem_append] at h
    rcases h with (h | h) | h
    · exact fileOpened_openFileEvents w a b i p h
    · simp at h
    · exfalso
      split at h <;> simp_all
  · rw [if_neg hc] at h
    dsimp only at h
    simp only [List.mem_append] at h
    rcases h with (h | h) | h
    · exact fileOpened_openFileEvents w a b i p h
    · simp at h
    · exfalso
      simp only [List.mem_map] at h
      obtain ⟨t, ht, hev⟩ := h
      split at hev <;> simp_all

theorem fileClosed_mem_processTarget (w : World) (i : Nat) (b : BrokerConfig) (p : Str)
    (hc : w.connectOk i = false) (hfo : (openFileEvents w i b).2 = some p) :
    Event.fileClosed i p ∈ (processTarget w i b).1 := by
  simp [processTarget, hc, hfo]
/-- Claim C1: startup keeps exactly the successfully connecting targets as
running sessions in order; with at least one connection the process
proceeds to the listening state, and with none it exits through one of
the two fatal diagnostics and never reaches the listening state. -/
theorem startup_connected_sessions (w : World) (cfg : Config) :
    (startup w cfg).sessions.map Session.index = connectedIdxs w cfg ∧
    (startup w cfg).sessions.length = (connectedIdxs w cfg).length ∧
    (1 ≤ (connectedIdxs w cfg).length → (startup w cfg).phase = Phase.running) ∧
    ((connectedIdxs w cfg).length = 0 →
      (startup w cfg).phase ≠ Phase.running ∧
      ((startup w cfg).phase = Phase.fatalNoBrokers ∨
       (startup w cfg).phase = Phase.fatalNoConnections)) := by
  refine ⟨startup_sessions_map w cfg, startup_sessions_len w cfg, ?_, ?_⟩
  · intro hJ
    rw [startup_phase_eq]
    have hK : cfg.Brokers.length ≠ 0 := by
      intro h0
      rw [connectedIdxs, h0] at hJ
      simp at hJ
    rw [if_neg hK, if_neg (by omega)]
  · intro hJ
    rw [startup_phase_eq]
    by_cases hK : cfg.Brokers.length = 0
    · rw [if_pos hK]
      exact ⟨by simp, Or.inl rfl⟩
    · rw [if_neg hK, if_pos hJ]
      exact ⟨by simp, Or.inr rfl⟩

theorem startup_connected_sessions_witness :
    (startup ⟨fun _ => true, fun _ => true, fun i => i = 0, fun _ _ => true⟩
        ⟨[⟨[104], [49], [], [], [[35]], []⟩, ⟨[107], [50], [], [], [[35]], []⟩], false⟩).phase
      = Phase.running := by
  exact (startup_connected_sessions _ _).2.2.1 (by decide)
/-- Claim C2: a target whose connect fails has the failure logged, any
file sink it opened closed, is excluded from the running set, and leaves
every other target's membership in the running set untouched. -/
theorem startup_connect_failure_isolated (w : World) (cfg : Config) (i : Nat)
    (hi : i < cfg.Brokers.length) (hfail : w.connectOk i = false) :
    Event.connectFailed i ∈ (startup w cfg).events ∧
    (∀ p, Event.fileOpened i p ∈ (startup w cfg).events →
      Event.fileClosed i p ∈ (startup w cfg).events) ∧
    i ∉ (startup w cfg).sessions.map Session.index ∧
    (∀ j, j ≠ i → (j ∈ (startup w cfg).sessions.map Session.index ↔
      (j < cfg.Brokers.length ∧ w.connectOk j = true))) := by
  have hK : cfg.Brokers.length ≠ 0 := by omega
  obtain ⟨b, hb⟩ : ∃ b, cfg.Brokers[i]? = some b := by
    rw [List.getElem?_eq_getElem hi]
    exact ⟨_, rfl⟩
  refine ⟨?_, ?_, ?_, ?_⟩
  · rw [mem_startup_events w cfg _ hK]
    exact ⟨i, b, hb, connectFailed_mem_processTarget w i b hfail⟩
  · intro p hp
    rw [mem_startup_events w cfg _ hK] at hp ⊢
    obtain ⟨a, b2, hb2, hmem⟩ := hp
    obtain ⟨hai, hfo⟩ := fileOpened_processTarget w a b2 i p hmem
    subst hai
    exact ⟨a, b2, hb2, fileClosed_mem_processTarget w a b2 p hfail hfo⟩
  · rw [startup_sessions_map, mem_connectedIdxs]
    simp [hfail]
  · intro j hj
    rw [startup_sessions_map, mem_connectedIdxs]

theorem startup_connect_failure_isolated_witness :
    Event.connectFailed 0 ∈
      (startup ⟨fun _ => true, fun _ => true, fun i => i = 1, fun _ _ => true⟩
        ⟨[⟨[104], [49], [], [], [[35]], []⟩, ⟨[107], [50], [], [], [[35]], []⟩], false⟩).events ∧
    (0 : Nat) ∉
      (startup ⟨fun _ => true, fun _ => true, fun i => i = 1, fun _ _ => true⟩
        ⟨[⟨[104], [49], [], [], [[35]], []⟩, ⟨[107], [50], [], [], [[35]], []⟩], false⟩).sessions.map
        Session.index := by
  have h := startup_connect_failure_isolated
    ⟨fun _ => true, fun _ => true, fun i => i = 1, fun _ _ => true⟩
    ⟨[⟨[104], [49], [], [], [[35]], []⟩, ⟨[107], [50], [], [], [[35]], []⟩], false⟩
    0 (by decide) (by decide)
  exact ⟨h.1, h.2.2.1⟩

/-- Claim C7: for a connected session, a failed subscribe is logged for
that topic, the session stays in the running set, and every other topic
of the target still gets its own subscribe attempt logged with its own
outcome. -/
theorem subscribe_failure_isolated (w : World) (cfg : Config) (i : Nat) (b : BrokerConfig)
    (t : Str) (hb : cfg.Brokers[i]? = some b) (hc : w.connectOk i = true)
    (ht : t ∈ b.Topics) (hsf : w.subscribeOk i t = false) :
    Event.subscribeFailed i t ∈ (startup w cfg).events ∧
    i ∈ (startup w cfg).sessions.map Session.index ∧
    (∀ t2 ∈ b.Topics, w.subscribeOk i t2 = true →
      Event.subscribed i t2 ∈ (startup w cfg).events) ∧
    (∀ t2 ∈ b.Topics, w.subscribeOk i t2 = false →
      Event.subscribeFailed i t2 ∈ (startup w cfg).events) := by
  have hi : i < cfg.Brokers.length := by
    rcases List.getElem?_eq_some_iff.mp hb with ⟨h1, _⟩
    exact h1
  have hK : cfg.Brokers.length ≠ 0 := by omega
  have hsub : ∀ t2 ∈ b.Topics,
      (if w.subscribeOk i t2 then Event.subscribed i t2 else Event.subscribeFailed i t2) ∈
        (processTarget w i b).1 := by
    intro t2 ht2
    rw [processTarget, if_neg (by simp [hc])]
    dsimp only
    simp only [List.mem_append]
    right
    exact List.mem_map_of_mem _ ht2
  refine ⟨?_, ?_, ?_, ?_⟩
  · rw [mem_startup_events w cfg _ hK]
    refine ⟨i, b, hb, ?_⟩
    have := hsub t ht
    rw [hsf] at this
    simpa using this
  · rw [startup_sessions_map, mem_connectedIdxs]
    exact ⟨hi, hc⟩
  · intro t2 ht2 hok
    rw [mem_startup_events w cfg _ hK]
    refine ⟨i, b, hb, ?_⟩
    have := hsub t2 ht2
    rw [hok] at this
    simpa using this
  · intro t2 ht2 hbad
    rw [mem_startup_events w cfg _ hK]
    refine ⟨i, b, hb, ?_⟩
    have := hsub t2 ht2
    rw [hbad] at this
    simpa using this

theorem subscribe_failure_isolated_witness :
    Event.subscribeFailed 0 [35] ∈
      (startup ⟨fun _ => true, fun _ => true, fun _ => true, fun _ _ => false⟩
        ⟨[⟨[104], [49], [], [], [[35]], []⟩], false⟩).events ∧
    (0 : Nat) ∈
      (startup ⟨fun _ => true, fun _ => true, fun _ => true, fun _ _ => false⟩
        ⟨[⟨[104], [49], [], [], [[35]], []⟩], false⟩).sessions.map Session.index := by
  have h := subscribe_failure_isolated
    ⟨fun _ => true, fun _ => true, fun _ => true, fun _ _ => false⟩
    ⟨[⟨[104], [49], [], [], [[35]], []⟩], false⟩
    0 ⟨[104], [49], [], [], [[35]], []⟩ [35] (by decide) (by decide) (by decide) (by decide)
  exact ⟨h.1, h.2.1⟩
theorem splitSlash_noslash (p : Str) (h : 47 ∉ p) : splitSlash p = [p] := by
  induction p with
  | nil => rfl
  | cons c t ih =>
    have hc : c ≠ 47 := fun hh => h (hh ▸ List.mem_cons_self c t)
    have ht : 47 ∉ t := fun hh => h (List.mem_cons_of_mem c hh)
    rw [splitSlash]
    simp only [hc, if_false, reduceIte, ih ht]

theorem splitSlash_append (a b : Str) (h : 47 ∉ a) :
    splitSlash (a ++ 47 :: b) = a :: splitSlash b := by
  induction a with
  | nil => simp [splitSlash]
  | cons c t ih =>
    have hc : c ≠ 47 := fun hh => h (hh ▸ List.mem_cons_self c t)
    have ht : 47 ∉ t := fun hh => h (List.mem_cons_of_mem c hh)
    rw [List.cons_append, splitSlash]
    simp only [hc, if_false, reduceIte, ih ht]

theorem isAbs_noslash (p : Str) (h : 47 ∉ p) : isAbs p = false := by
  cases p with
  | nil => rfl
  | cons c t =>
    have hc : c ≠ 47 := fun hh => h (hh ▸ List.mem_cons_self c t)
    simp [isAbs, hc]

theorem dirPath_noslash (p : Str) (h : 47 ∉ p) : dirPath p = [46] := by
  rw [dirPath]
  have hd : p.reverse.dropWhile (fun c => c != 47) = [] := by
    rw [List.dropWhile_eq_nil_iff]
    intro x hx
    have : x ≠ 47 := fun hh => h (hh ▸ (List.mem_reverse.mp hx))
    simp [this]
  rw [hd]
  rfl

theorem joinTwo_logs (p : Str) (h : 47 ∉ p) (h0 : p ≠ []) (h1 : p ≠ [46])
    (h2 : p ≠ [46, 46]) :
    joinTwo [108, 111, 103, 115] p = [108, 111, 103, 115, 47] ++ p := by
  rw [joinTwo, clean]
  rw [if_neg (by simp)]
  dsimp only
  rw [show isAbs ([108, 111, 103, 115] ++ 47 :: p) = false from by simp [isAbs]]
  rw [splitSlash_append _ _ (by decide), splitSlash_noslash p h]
  rw [show cleanComps false [] [[108, 111, 103, 115], p] =
      cleanComps false [[108, 111, 103, 115]] [p] from by
    rw [cleanComps]
    simp]
  rw [show cleanComps false [[108, 111, 103, 115]] [p] = [[108, 111, 103, 115], p] from by
    rw [cleanComps]
    rw [if_neg (by simp [h0, h1]), if_neg h2]
    rfl]
  simp [List.intercalate, List.intersperse]

theorem outputPathOf_noslash (p : Str) (h : 47 ∉ p) (h0 : p ≠ []) (h1 : p ≠ [46])
    (h2 : p ≠ [46, 46]) :
    outputPathOf p = [108, 111, 103, 115, 47] ++ p := by
  rw [outputPathOf, if_pos ⟨isAbs_noslash p h, dirPath_noslash p h⟩]
  exact joinTwo_logs p h h0 h1 h2
theorem evDir_sub_openFileEvents (w : World) (i : Nat) (b : BrokerConfig)
    (hof : b.OutputFile ≠ []) (e : Event)
    (he : e ∈ (if dirPath (outputPathOf b.OutputFile) ≠ [46] ∧
                  dirPath (outputPathOf b.OutputFile) ≠ [] then
                (if w.mkdirOk (dirPath (outputPathOf b.OutputFile)) then
                  [Event.mkdirCalled (dirPath (outputPathOf b.OutputFile))]
                 else [Event.mkdirCalled (dirPath (outputPathOf b.OutputFile)),
                   Event.logDirFailed (dirPath (outputPathOf b.OutputFile))]) else [])) :
    e ∈ (openFileEvents w i b).1 := by
  rw [openFileEvents, if_neg hof]
  dsimp only
  split <;> simp_all

theorem openFileEvents_sub_processTarget (w : World) (i : Nat) (b : BrokerConfig)
    (e : Event) (he : e ∈ (openFileEvents w i b).1) :
    e ∈ (processTarget w i b).1 := by
  rw [processTarget]
  split <;> (dsimp only; simp only [List.mem_append]; exact Or.inl (Or.inl he))

theorem fileOpenFailed_mem (w : World) (i : Nat) (b : BrokerConfig)
    (hof : b.OutputFile ≠ []) (hop : w.openOk (outputPathOf b.OutputFile) = false) :
    Event.fileOpenFailed (outputPathOf b.OutputFile) ∈ (openFileEvents w i b).1 := by
  rw [openFileEvents, if_neg hof]
  dsimp only
  rw [if_neg (by simp [hop])]
  simp

theorem openFileEvents_none (w : World) (i : Nat) (b : BrokerConfig)
    (hop : w.openOk (outputPathOf b.OutputFile) = false) :
    (openFileEvents w i b).2 = none := by
  rw [openFileEvents]
  split
  · rfl
  · dsimp only
    rw [if_neg (by simp [hop])]

/-- Claim C8: an output-file path without a directory component is
rerooted under the `logs` directory; the resulting directory triggers a
recursive-create call (its failure is logged and does not stop the file
open); and an open failure is logged, leaves the connected target running
console-only, and affects neither the running set nor the listening
transition. -/
theorem fileSink_fallback (w : World) (cfg : Config) (i : Nat) (b : BrokerConfig)
    (hb : cfg.Brokers[i]? = some b) (hof : b.OutputFile ≠ []) :
    ((47 ∉ b.OutputFile) → b.OutputFile ≠ [46] → b.OutputFile ≠ [46, 46] →
      outputPathOf b.OutputFile = [108, 111, 103, 115, 47] ++ b.OutputFile) ∧
    (dirPath (outputPathOf b.OutputFile) ≠ [46] → dirPath (outputPathOf b.OutputFile) ≠ [] →
      Event.mkdirCalled (dirPath (outputPathOf b.OutputFile)) ∈ (startup w cfg).events ∧
      (w.mkdirOk (dirPath (outputPathOf b.OutputFile)) = false →
        Event.logDirFailed (dirPath (outputPathOf b.OutputFile)) ∈ (startup w cfg).events)) ∧
    (w.openOk (outputPathOf b.OutputFile) = false →
      Event.fileOpenFailed (outputPathOf b.OutputFile) ∈ (startup w cfg).events ∧
      (w.connectOk i = true → Session.mk i b none ∈ (startup w cfg).sessions) ∧
      (startup w cfg).sessions.map Session.index = connectedIdxs w cfg ∧
      (1 ≤ (connectedIdxs w cfg).length → (startup w cfg).phase = Phase.running)) := by
  have hi : i < cfg.Brokers.length := (List.getElem?_eq_some_iff.mp hb).1
  have hK : cfg.Brokers.length ≠ 0 := by omega
  refine ⟨fun h h1 h2 => outputPathOf_noslash b.OutputFile h hof h1 h2, ?_, ?_⟩
  · intro hd1 hd2
    constructor
    · rw [mem_startup_events w cfg _ hK]
      refine ⟨i, b, hb, openFileEvents_sub_processTarget w i b _
        (evDir_sub_openFileEvents w i b hof _ ?_)⟩
      rw [if_pos ⟨hd1, hd2⟩]
      split <;> simp
    · intro hmk
      rw [mem_startup_events w cfg _ hK]
      refine ⟨i, b, hb, openFileEvents_sub_processTarget w i b _
        (evDir_sub_openFileEvents w i b hof _ ?_)⟩
      rw [if_pos ⟨hd1, hd2⟩, if_neg (by simp [hmk])]
      simp
  · intro hop
    refine ⟨?_, ?_, startup_sessions_map w cfg, ?_⟩
    · rw [mem_startup_events w cfg _ hK]
      exact ⟨i, b, hb, openFileEvents_sub_processTarget w i b _
        (fileOpenFailed_mem w i b hof hop)⟩
    · intro hc
      rw [startup_sessions_eq w cfg hK, runTargets_sessions, List.mem_filterMap]
      refine ⟨(i, b), mem_enum_of_getElem? cfg.Brokers i b hb, ?_⟩
      simp [sessionOf, hc, openFileEvents_none w i b hop]
    · intro hJ
      rw [startup_phase_eq, if_neg hK, if_neg (by omega)]

theorem fileSink_fallback_witness :
    outputPathOf [120] = [108, 111, 103, 115, 47, 120] ∧
    Event.fileOpenFailed [108, 111, 103, 115, 47, 120] ∈
      (startup ⟨fun _ => true, fun _ => false, fun _ => true, fun _ _ => true⟩
        ⟨[⟨[104], [49], [], [], [[35]], [120]⟩], false⟩).events ∧
    Session.mk 0 ⟨[104], [49], [], [], [[35]], [120]⟩ none ∈
      (startup ⟨fun _ => true, fun _ => false, fun _ => true, fun _ _ => true⟩
        ⟨[⟨[104], [49], [], [], [[35]], [120]⟩], false⟩).sessions := by
  have h := fileSink_fallback
    ⟨fun _ => true, fun _ => false, fun _ => true, fun _ _ => true⟩
    ⟨[⟨[104], [49], [], [], [[35]], [120]⟩], false⟩
    0 ⟨[104], [49], [], [], [[35]], [120]⟩ (by decide) (by decide)
  have h3 := h.2.2 (by decide)
  exact ⟨h.1 (by decide) (by decide) (by decide), h3.1, h3.2.1 (by decide)⟩
/-! ## Message delivery (createMessageHandler, main.go lines 31-50) -/

/-- Side effects of one handler invocation: the console write, the file
write and sync with their collaborator outcomes, and error-log calls
(the handler issues none). -/
inductive HEvent where
  | consoleLine (line : Str)
  | fileWrite (content : Str) (ok : Bool)
  | fileSync (ok : Bool)
  | errorLogged (msg : Str)
deriving DecidableEq

/-- Translation of the closure returned by `createMessageHandler`: under
the session's mutex it formats the message, writes the tagged line to the
console logger, and, when an output file is open, writes the timestamped
line and syncs.  The results of `WriteString` and `Sync` are discarded by
the source, so they are recorded in the trace but produce no error log. -/
def messageHandler (i : Nat) (b : BrokerConfig) (hasFile : Bool) (detailed : Bool)
    (topic payload now : Str) (writeOk syncOk : Bool) : List HEvent :=
  let brokerAddr := b.Broker ++ [58] ++ b.Port
  let message := formatMessage topic payload detailed
  HEvent.consoleLine ([91] ++ asciiBytes "Broker " ++ natDec (i + 1) ++ [58, 32] ++
      brokerAddr ++ [93, 32] ++ message) ::
    (if hasFile then
      [HEvent.fileWrite ([91] ++ now ++ [93, 32, 91] ++ asciiBytes "Broker " ++
          natDec (i + 1) ++ [58, 32] ++ brokerAddr ++ [93, 32] ++ message ++ [10]) writeOk,
       HEvent.fileSync syncOk]
    else [])

/-- A failed file write or sync in the trace. -/
def isFailedFileOp : HEvent → Bool
  | HEvent.fileWrite _ ok => !ok
  | HEvent.fileSync ok => !ok
  | _ => false

/-- An error-report in the trace. -/
def isErrorLog : HEvent → Bool
  | HEvent.errorLogged _ => true
  | _ => false

/-- The specification's sink contract, written from the spec words: if any
file operation failed, some failure report must appear in the trace. -/
def reportsFailures (evts : List HEvent) : Bool :=
  if evts.any isFailedFileOp then evts.any isErrorLog else true

/-- Claim C5 counterexample: a handler invocation whose file write fails
returns normally with no error report — the failure is silently
swallowed. -/
theorem messageHandler_c5_counterexample :
    reportsFailures (messageHandler 0 ⟨[104], [49], [], [], [[35]], [120]⟩ true false
      [116] [97] [110] false true) = false := by
  decide

/-- Claim C5 (amended): with a file sink open the handler always writes
the complete line — full date-time stamp, session tag, message and line
terminator — and issues a sync before returning, in that order; write and
sync failures are ignored, never reported. -/
theorem messageHandler_file_durability (i : Nat) (b : BrokerConfig) (detailed : Bool)
    (topic payload now : Str) (writeOk syncOk : Bool) (hasFile : Bool)
    (hf : hasFile = true) :
    messageHandler i b hasFile detailed topic payload now writeOk syncOk =
      [HEvent.consoleLine ([91] ++ asciiBytes "Broker " ++ natDec (i + 1) ++ [58, 32] ++
          (b.Broker ++ [58] ++ b.Port) ++ [93, 32] ++ formatMessage topic payload detailed),
       HEvent.fileWrite ([91] ++ now ++ [93, 32, 91] ++ asciiBytes "Broker " ++
          natDec (i + 1) ++ [58, 32] ++ (b.Broker ++ [58] ++ b.Port) ++ [93, 32] ++
          formatMessage topic payload detailed ++ [10]) writeOk,
       HEvent.fileSync syncOk] ∧
    (∀ m, HEvent.errorLogged m ∉
      messageHandler i b hasFile detailed topic payload now writeOk syncOk) := by
  subst hf
  constructor
  · simp [messageHandler]
  · intro m
    simp [messageHandler]

theorem messageHandler_file_durability_witness :
    messageHandler 0 ⟨[104], [49], [], [], [[35]], [120]⟩ true false [116] [97] [110] false true =
      [HEvent.consoleLine ([91] ++ asciiBytes "Broker " ++ natDec 1 ++ [58, 32] ++
          ([104] ++ [58] ++ [49]) ++ [93, 32] ++ formatMessage [116] [97] false),
       HEvent.fileWrite ([91] ++ [110] ++ [93, 32, 91] ++ asciiBytes "Broker " ++
          natDec 1 ++ [58, 32] ++ ([104] ++ [58] ++ [49]) ++ [93, 32] ++
          formatMessage [116] [97] false ++ [10]) false,
       HEvent.fileSync true] := by
  exact (messageHandler_file_durability 0 ⟨[104], [49], [], [], [[35]], [120]⟩ false
    [116] [97] [110] false true true rfl).1

/-! ## Console serialization (claim C6)

The handler locks `broker.mu`, a mutex stored per `BrokerConnection`:
there is one mutex per session, not one shared mutex for the console
sink.  Two concurrent deliveries are modelled as two threads, each
passing through its critical section (format + write) under the mutex of
its own session. -/

/-- Position of a handler thread: before, inside, or after the
format-and-write critical section. -/
inductive TPhase where
  | start
  | inCrit
  | done
deriving DecidableEq

/-- Interleaving steps of two concurrent handler invocations for
sessions at broker positions `b1` and `b2`.  A thread enters its critical
section by acquiring `broker.mu` of its own session, which blocks only
while the other thread holds the same session's mutex. -/
inductive LockStep (b1 b2 : Nat) : TPhase × TPhase → TPhase × TPhase → Prop where
  | enter1 {t2 : TPhase} (h : ¬(b1 = b2 ∧ t2 = TPhase.inCrit)) :
      LockStep b1 b2 (TPhase.start, t2) (TPhase.inCrit, t2)
  | exit1 {t2 : TPhase} : LockStep b1 b2 (TPhase.inCrit, t2) (TPhase.done, t2)
  | enter2 {t1 : TPhase} (h : ¬(b1 = b2 ∧ t1 = TPhase.inCrit)) :
      LockStep b1 b2 (t1, TPhase.start) (t1, TPhase.inCrit)
  | exit2 {t1 : TPhase} : LockStep b1 b2 (t1, TPhase.inCrit) (t1, TPhase.done)

/-- States reachable by the two threads from their common start. -/
def LockReach (b1 b2 : Nat) (s : TPhase × TPhase) : Prop :=
  Relation.ReflTransGen (LockStep b1 b2) (TPhase.start, TPhase.start) s

/-- Claim C6 counterexample: handlers of two distinct sessions (broker
positions 0 and 1) can both be inside format-plus-write at the same time;
no mutual-exclusion mechanism in the code serializes the shared console
sink across sessions. -/
theorem console_no_cross_session_mutex :
    LockReach 0 1 (TPhase.inCrit, TPhase.inCrit) := by
  have s1 : LockStep 0 1 (TPhase.start, TPhase.start) (TPhase.inCrit, TPhase.start) :=
    LockStep.enter1 (by simp)
  have s2 : LockStep 0 1 (TPhase.inCrit, TPhase.start) (TPhase.inCrit, TPhase.inCrit) :=
    LockStep.enter2 (by simp)
  exact Relation.ReflTransGen.tail (Relation.ReflTransGen.tail Relation.ReflTransGen.refl s1) s2

/-- Claim C6 (amended): the per-session mutex serializes the two
deliveries only when they belong to the same session — then the two
threads are never simultaneously inside format-plus-write. -/
theorem same_session_mutex (b : Nat) (s : TPhase × TPhase) (h : LockReach b b s) :
    s ≠ (TPhase.inCrit, TPhase.inCrit) := by
  induction h with
  | refl => simp
  | tail hr hstep ih =>
    cases hstep with
    | enter1 hcond =>
      intro heq
      injection heq with h1 h2
      exact hcond ⟨rfl, h2⟩
    | exit1 => simp
    | enter2 hcond =>
      intro heq
      injection heq with h1 h2
      exact hcond ⟨rfl, h1⟩
    | exit2 => simp

theorem same_session_mutex_witness :
    (TPhase.start, TPhase.start) ≠ (TPhase.inCrit, TPhase.inCrit) :=
  same_session_mutex 0 (TPhase.start, TPhase.start) Relation.ReflTransGen.refl
/-! ## Configuration loading (config/config.go)

The process environment is a list of variable/value pairs; `os.Getenv`
of an absent variable returns the empty string, which `getEnv` treats as
unset.  `.env` merging happens before `LoadConfig` reads anything, so the
environment here is the merged one. -/

abbrev Env := List (Str × Str)

def lookupEnv : Env → Str → Option Str
  | [], _ => none
  | (k, v) :: rest, key => if k = key then some v else lookupEnv rest key

/-- Translation of `getEnv(key, fallback)`. -/
def getEnv (env : Env) (key fallback : Str) : Str :=
  match lookupEnv env key with
  | some v => if v = [] then fallback else v
  | none => fallback

/-- ASCII whitespace trim (`strings.TrimSpace`; the source's topics are
ASCII, so the unicode cases are not modelled). -/
def isSpaceByte (c : Nat) : Bool :=
  c = 32 || c = 9 || c = 10 || c = 11 || c = 12 || c = 13

def trimSpace (s : Str) : Str :=
  ((s.dropWhile isSpaceByte).reverse.dropWhile isSpaceByte).reverse

/-- Go `strings.Split(s, ",")`. -/
def splitComma : Str → List Str
  | [] => [[]]
  | c :: t =>
    let r := splitComma t
    if c = 44 then [] :: r
    else
      match r with
      | h :: t2 => (c :: h) :: t2
      | [] => [[c]]

/-- Per-broker normalization of `validateAndNormalizeConfig`: default
port 1883, default wildcard topic, trim every topic. -/
def normalizeBroker (b : BrokerConfig) : BrokerConfig :=
  let b1 := if b.Port = [] then { b with Port := [49, 56, 56, 51] } else b
  let b2 := if b1.Topics.length = 0 then { b1 with Topics := [[35]] } else b1
  { b2 with Topics := b2.Topics.map trimSpace }

def validateAndNormalizeConfig (cfg : Config) : Config :=
  { cfg with Brokers := cfg.Brokers.map normalizeBroker }

/-! ### json.Unmarshal into the Config struct

Modelled from the spec: struct decoding of the encoding/json collaborator.
JSON keys match struct tags case-insensitively (ASCII fold); unknown keys
are ignored; a null value leaves the field untouched; a value of the
wrong type is an unmarshalling error, which `LoadConfig` only observes as
a non-nil error.  String values are kept in source form, as in the rest
of the JSON model. -/

def lowerByte (c : Nat) : Nat := if 65 ≤ c ∧ c ≤ 90 then c + 32 else c

def keyMatches (k : Str) (tag : Str) : Bool := k.map lowerByte = tag

def jString : Json → Option (Option Str)
  | Json.str s => some (some s)
  | Json.null => some none
  | _ => none

def jBool : Json → Option (Option Bool)
  | Json.bool v => some (some v)
  | Json.null => some none
  | _ => none

def jStringList : Json → Option (Option (List Str))
  | Json.arr xs =>
    (xs.mapM (fun j => match j with
      | Json.str s => some s
      | Json.null => some []
      | _ => none)).map some
  | Json.null => some none
  | _ => none

def emptyBroker : BrokerConfig := ⟨[], [], [], [], [], []⟩

def decodeBrokerField (b : BrokerConfig) (f : Str × Json) : Option BrokerConfig :=
  if keyMatches f.1 (asciiBytes "broker") then
    (jString f.2).map (fun v => match v with | some s => { b with Broker := s } | none => b)
  else if keyMatches f.1 (asciiBytes "port") then
    (jString f.2).map (fun v => match v with | some s => { b with Port := s } | none => b)
  else if keyMatches f.1 (asciiBytes "username") then
    (jString f.2).map (fun v => match v with | some s => { b with Username := s } | none => b)
  else if keyMatches f.1 (asciiBytes "password") then
    (jString f.2).map (fun v => match v with | some s => { b with Password := s } | none => b)
  else if keyMatches f.1 (asciiBytes "topics") then
    (jStringList f.2).map (fun v => match v with | some ts => { b with Topics := ts } | none => b)
  else if keyMatches f.1 (asciiBytes "output_file") then
    (jString f.2).map (fun v => match v with | some s => { b with OutputFile := s } | none => b)
  else some b

def decodeBroker : Json → Option BrokerConfig
  | Json.obj fs => fs.foldlM decodeBrokerField emptyBroker
  | Json.null => some emptyBroker
  | _ => none

def decodeConfigField (c : Config) (f : Str × Json) : Option Config :=
  if keyMatches f.1 (asciiBytes "brokers") then
    match f.2 with
    | Json.arr xs => (xs.mapM decodeBroker).map (fun bs => { c with Brokers := bs })
    | Json.null => some c
    | _ => none
  else if keyMatches f.1 (asciiBytes "detailed") then
    (jBool f.2).map (fun v => match v with | some d => { c with Detailed := d } | none => c)
  else some c

def decodeConfigInto (c : Config) : Json → Option Config
  | Json.obj fs => fs.foldlM decodeConfigField c
  | Json.null => some c
  | _ => none

/-! ### Environment-based configuration (loadConfigFromEnv) -/

def brokerKey (idx : Nat) (suffix : String) : Str :=
  asciiBytes "BROKER_" ++ natDec idx ++ [95] ++ asciiBytes suffix

def gateTopics (gateID : Str) : List Str :=
  [gateID ++ asciiBytes "_localfirst", gateID ++ asciiBytes "_parkbox",
   gateID ++ asciiBytes "_status", gateID ++ asciiBytes "_events"]

/-- One `BROKER_N_*` record (body of the multi-broker scan loop). -/
def envBroker (env : Env) (idx : Nat) : BrokerConfig :=
  let base : BrokerConfig :=
    { Broker := getEnv env (brokerKey idx "HOST") [],
      Port := getEnv env (brokerKey idx "PORT") (asciiBytes "1883"),
      Username := getEnv env (brokerKey idx "USERNAME") [],
      Password := getEnv env (brokerKey idx "PASSWORD") [],
      Topics := [],
      OutputFile := getEnv env (brokerKey idx "OUTPUT_FILE") [] }
  let topicsEnv := getEnv env (brokerKey idx "TOPICS") []
  let b1 := if topicsEnv ≠ [] then
      { base with Topics := (splitComma topicsEnv).map trimSpace } else base
  let gid := getEnv env (brokerKey idx "GATE_ID") []
  let b2 := if gid ≠ [] then { b1 with Topics := b1.Topics ++ gateTopics gid } else b1
  if b2.Topics.length = 0 then { b2 with Topics := [[35]] } else b2

/-- The scan over `BROKER_1_HOST`, `BROKER_2_HOST`, … stopping at the
first index with no host.  The fuel `env.length + 1` is ample: a finite
environment defines at most `env.length` distinct host variables, so the
loop always stops within the fuel. -/
def collectEnvBrokers (env : Env) : Nat → Nat → List BrokerConfig
  | 0, _ => []
  | fuel + 1, idx =>
    if getEnv env (brokerKey idx "HOST") [] = [] then []
    else envBroker env idx :: collectEnvBrokers env fuel (idx + 1)

/-- The legacy single-broker fallback. -/
def legacyBroker (env : Env) : BrokerConfig :=
  let base : BrokerConfig :=
    { Broker := getEnv env (asciiBytes "MQTT_BROKER") (asciiBytes "localhost"),
      Port := getEnv env (asciiBytes "MQTT_PORT") (asciiBytes "1883"),
      Username := getEnv env (asciiBytes "MQTT_USERNAME") [],
      Password := getEnv env (asciiBytes "MQTT_PASSWORD") [],
      Topics := [],
      OutputFile := [] }
  let logFileEnv := getEnv env (asciiBytes "LOG_FILE") []
  let b0 :=
    if logFileEnv = [] then { base with OutputFile := [] }
    else if logFileEnv = asciiBytes "true" ∨ logFileEnv = [49] then
      { base with OutputFile := asciiBytes "mqtt.log" }
    else { base with OutputFile := logFileEnv }
  let topicsEnv := getEnv env (asciiBytes "MQTT_TOPICS") []
  let b1 := if topicsEnv ≠ [] then
      { b0 with Topics := (splitComma topicsEnv).map trimSpace } else b0
  let gid := getEnv env (asciiBytes "GATE_ID") []
  let b2 := if gid ≠ [] then { b1 with Topics := b1.Topics ++ gateTopics gid } else b1
  if b2.Topics.length = 0 then { b2 with Topics := [[35]] } else b2

/-- Translation of `loadConfigFromEnv`. -/
def loadConfigFromEnv (env : Env) : Config :=
  let brokers := collectEnvBrokers env (env.length + 1) 1
  { Brokers := if brokers.length = 0 then [legacyBroker env] else brokers,
    Detailed := getEnv env (asciiBytes "DETAILED") (asciiBytes "false") = asciiBytes "true" }

/-- The JSON-file configuration as `LoadConfig` sees it: parse the file
bytes and unmarshal into a config whose `Detailed` was pre-set from the
environment. -/
def fileConfig (env : Env) (data : Str) : Option Config :=
  match unmarshal data with
  | some j => decodeConfigInto
      { Brokers := [],
        Detailed := getEnv env (asciiBytes "DETAILED") (asciiBytes "false") = asciiBytes "true" } j
  | none => none

/-- Translation of `LoadConfig`: `fileData` is the result of reading the
configured JSON file (`none` when `os.ReadFile` failed). -/
def LoadConfig (fileData : Option Str) (env : Env) : Config :=
  match fileData with
  | some data =>
    match fileConfig env data with
    | some cfg =>
      if 0 < cfg.Brokers.length then validateAndNormalizeConfig cfg
      else loadConfigFromEnv env
    | none => loadConfigFromEnv env
  | none => loadConfigFromEnv env
theorem decodeConfigField_brokers (c1 c2 : Config) (h : c1.Brokers = c2.Brokers)
    (f : Str × Json) :
    (decodeConfigField c1 f).map Config.Brokers = (decodeConfigField c2 f).map Config.Brokers := by
  rw [decodeConfigField, decodeConfigField]
  split
  · split
    · rename_i xs heq
      cases hm : List.mapM decodeBroker xs <;> simp
    · simp [h]
    · rfl
  · split
    · cases hv : jBool f.2 with
      | none => simp
      | some v => cases v <;> simp [h]
    · simp [h]

theorem decodeConfigInto_brokers_fields (fs : List (Str × Json)) :
    ∀ (c1 c2 : Config), c1.Brokers = c2.Brokers →
    (fs.foldlM decodeConfigField c1).map Config.Brokers =
      (fs.foldlM decodeConfigField c2).map Config.Brokers := by
  induction fs with
  | nil => intro c1 c2 h; simp [h]
  | cons f rest ih =>
    intro c1 c2 h
    rw [List.foldlM_cons, List.foldlM_cons]
    have hstep := decodeConfigField_brokers c1 c2 h f
    cases h1 : decodeConfigField c1 f with
    | none =>
      rw [h1] at hstep
      cases h2 : decodeConfigField c2 f with
      | none => simp
      | some d2 => rw [h2] at hstep; simp at hstep
    | some d1 =>
      rw [h1] at hstep
      cases h2 : decodeConfigField c2 f with
      | none => rw [h2] at hstep; simp at hstep
      | some d2 =>
        rw [h2] at hstep
        simp only [Option.map_some'] at hstep
        injection hstep with hb
        show (List.foldlM decodeConfigField d1 rest).map Config.Brokers =
          (List.foldlM decodeConfigField d2 rest).map Config.Brokers
        exact ih d1 d2 hb

theorem decodeConfigInto_brokers (c1 c2 : Config) (h : c1.Brokers = c2.Brokers) (j : Json) :
    (decodeConfigInto c1 j).map Config.Brokers =
      (decodeConfigInto c2 j).map Config.Brokers := by
  cases j <;> simp [decodeConfigInto, h]
  exact decodeConfigInto_brokers_fields _ c1 c2 h

/-- Claim C9: the JSON file wins only when it reads, parses and yields at
least one broker; a missing file, a parse or unmarshal error, or an empty
broker list each fall back entirely to environment parsing; and the
broker list decoded from the file does not depend on the environment, so
the two sources are never merged. -/
theorem LoadConfig_precedence (env : Env) :
    (LoadConfig none env = loadConfigFromEnv env) ∧
    (∀ data, fileConfig env data = none → LoadConfig (some data) env = loadConfigFromEnv env) ∧
    (∀ data cfg, fileConfig env data = some cfg → cfg.Brokers.length = 0 →
      LoadConfig (some data) env = loadConfigFromEnv env) ∧
    (∀ data cfg, fileConfig env data = some cfg → 0 < cfg.Brokers.length →
      LoadConfig (some data) env = validateAndNormalizeConfig cfg) ∧
    (∀ data env2, (fileConfig env data).map Config.Brokers =
      (fileConfig env2 data).map Config.Brokers) := by
  refine ⟨rfl, ?_, ?_, ?_, ?_⟩
  · intro data h
    rw [LoadConfig, h]
  · intro data cfg h h0
    rw [LoadConfig, h]
    dsimp only
    rw [if_neg (by omega)]
  · intro data cfg h h0
    rw [LoadConfig, h]
    dsimp only
    rw [if_pos h0]
  · intro data env2
    rw [fileConfig, fileConfig]
    cases unmarshal data with
    | none => simp
    | some j =>
      dsimp only
      exact decodeConfigInto_brokers
        { Brokers := [],
          Detailed := decide (getEnv env (asciiBytes "DETAILED") (asciiBytes "false") =
            asciiBytes "true") }
        { Brokers := [],
          Detailed := decide (getEnv env2 (asciiBytes "DETAILED") (asciiBytes "false") =
            asciiBytes "true") }
        rfl j

theorem LoadConfig_precedence_witness :
    LoadConfig (some [123, 34, 98, 114, 111, 107, 101, 114, 115, 34, 58, 91, 123, 34, 98,
        114, 111, 107, 101, 114, 34, 58, 34, 104, 34, 125, 93, 125]) [] =
      validateAndNormalizeConfig ⟨[⟨[104], [], [], [], [], []⟩], false⟩ := by
  exact (LoadConfig_precedence []).2.2.2.1 _ ⟨[⟨[104], [], [], [], [], []⟩], false⟩
    (by decide) (by decide)
/-- Claim C10: environment-based loading always yields at least one
broker; with no `BROKER_1_HOST` it falls back to the single legacy
target, whose fields default to host `localhost`, port `1883` and topic
list `["#"]` when the legacy variables are unset too; hence the
"No brokers configured" fatal exit is unreachable from environment
configuration. -/
theorem loadConfigFromEnv_nonempty (env : Env) :
    1 ≤ (loadConfigFromEnv env).Brokers.length ∧
    (getEnv env (brokerKey 1 "HOST") [] = [] →
      (loadConfigFromEnv env).Brokers = [legacyBroker env]) ∧
    (getEnv env (asciiBytes "MQTT_BROKER") (asciiBytes "localhost") = asciiBytes "localhost" →
     getEnv env (asciiBytes "MQTT_PORT") (asciiBytes "1883") = asciiBytes "1883" →
     getEnv env (asciiBytes "MQTT_USERNAME") [] = [] →
     getEnv env (asciiBytes "MQTT_PASSWORD") [] = [] →
     getEnv env (asciiBytes "LOG_FILE") [] = [] →
     getEnv env (asciiBytes "MQTT_TOPICS") [] = [] →
     getEnv env (asciiBytes "GATE_ID") [] = [] →
      legacyBroker env =
        { Broker := asciiBytes "localhost", Port := asciiBytes "1883", Username := [],
          Password := [], Topics := [[35]], OutputFile := [] }) ∧
    (∀ w : World, (startup w (loadConfigFromEnv env)).phase ≠ Phase.fatalNoBrokers) := by
  have hlen : 1 ≤ (loadConfigFromEnv env).Brokers.length := by
    rw [loadConfigFromEnv]
    dsimp only
    split
    · simp
    · rename_i hne
      have : (collectEnvBrokers env (env.length + 1) 1).length ≠ 0 := hne
      omega
  refine ⟨hlen, ?_, ?_, ?_⟩
  · intro h1
    rw [loadConfigFromEnv]
    dsimp only
    rw [show collectEnvBrokers env (env.length + 1) 1 = [] from by
      rw [collectEnvBrokers, if_pos h1]]
    rfl
  · intro hB hP hU hW hL hT hG
    rw [legacyBroker]
    rw [hB, hP, hU, hW, hL, hT, hG]
    rfl
  · intro w
    rw [startup_phase_eq, if_neg (by omega)]
    split <;> simp
theorem loadConfigFromEnv_nonempty_witness :
    (loadConfigFromEnv []).Brokers = [legacyBroker []] ∧
    legacyBroker [] =
      { Broker := asciiBytes "localhost", Port := asciiBytes "1883", Username := [],
        Password := [], Topics := [[35]], OutputFile := [] } ∧
    (startup ⟨fun _ => true, fun _ => true, fun _ => true, fun _ _ => true⟩
      (loadConfigFromEnv [])).phase ≠ Phase.fatalNoBrokers := by
  have h := loadConfigFromEnv_nonempty []
  exact ⟨h.2.1 (by decide),
    h.2.2.1 (by decide) (by decide) (by decide) (by decide) (by decide) (by decide) (by decide),
    h.2.2.2 ⟨fun _ => true, fun _ => true, fun _ => true, fun _ _ => true⟩⟩
